import Mathlib

/-!
# A shallow embedding of the `yocto_raytrace` renderer core

This file embeds, in Lean 4, the renderer implemented in
`src/codes/yocto_raytrace.cpp`: the texture sampler, the geometry
evaluators, the two-level BVH builder and traversal, the shading
functions, and the progressive sampling driver.

Modelling conventions:

* All machine floating-point scalars are modelled over `ℚ`.  The spec
  explicitly treats the low-level math library as an excluded
  collaborator "assumed to supply exact-precision" vector/frame/bbox
  primitives, so the embedding works with exact rational arithmetic.
* Machine integers (`int`, `uint32_t`, `uint64_t`) are modelled as
  `ℤ`/`ℕ` with explicit `% 2^w` where wrap-around matters (the PCG32
  random number generator).
* Fallible operations — C++ expressions whose evaluation is undefined
  behaviour (out-of-range `std::vector` indexing, integer modulo by
  zero) — return `Option` values, `none` marking the undefined case.
* A handful of primitives of the excluded math library are irrational
  over ℚ (`sqrt`, `sin`/`cos`/`acos`/`atan2`, the sRGB gamma curve, π).
  They are given executable rational stand-ins, each marked by a doc
  comment; no theorem below depends on the values of the stand-ins,
  only on where the renderer does (or does not) apply them.
* Loops whose termination depends on data-structure well-formedness
  (the BVH work queue, the traversal stack, the bounce recursion) take
  an explicit fuel argument sized so that it never runs out on the
  states the program actually constructs.
-/

namespace RtrSpec

/-! ## Rational scalar helpers -/

/-- `clamp` of the math library on floats: `min(max(x, lo), hi)`. -/
def qclamp (x lo hi : ℚ) : ℚ := min (max x lo) hi

/-- `clamp` of the math library on ints: `min(max(x, lo), hi)`. -/
def zclamp (x lo hi : ℤ) : ℤ := min (max x lo) hi

/-- Truncation toward zero: the C++ `(int)` cast on a float. -/
def qtrunc (q : ℚ) : ℤ := if 0 ≤ q then ⌊q⌋ else ⌈q⌉

/-- `std::fmod`: `a - b * trunc(a / b)`, exact over ℚ. -/
def fmodq (a b : ℚ) : ℚ := a - b * (qtrunc (a / b) : ℤ)

/-- Largest finite `float` value (`math::flt_max`), an exact rational. -/
def fltMax : ℚ := 340282346638528859811704183484516925440

/-- `math::ray_eps` (`1e-4f` in spirit), the default ray `tmin`. -/
def rayEps : ℚ := 1 / 10000

/-- Model of the excluded math library's square root.  `Rat.sqrt` is
exact on perfect squares (the only inputs on which any concrete
computation below relies); elsewhere it is an executable rational
stand-in for the float `sqrt`. -/
def qsqrt (q : ℚ) : ℚ := Rat.sqrt q

/-- Rational stand-in for the excluded math library's constant π
(`math::pif`).  No theorem below depends on its value. -/
def piQ : ℚ := 355 / 113

/-! ## Vectors -/

/-- `math::vec2f` over exact rationals. -/
structure vec2f where
  x : ℚ
  y : ℚ
deriving DecidableEq

/-- `math::vec3f` over exact rationals. -/
structure vec3f where
  x : ℚ
  y : ℚ
  z : ℚ
deriving DecidableEq

/-- `math::vec4f` over exact rationals. -/
structure vec4f where
  x : ℚ
  y : ℚ
  z : ℚ
  w : ℚ
deriving DecidableEq

/-- `math::vec2i`. -/
structure vec2i where
  x : ℤ
  y : ℤ
deriving DecidableEq

def zero2f : vec2f := ⟨0, 0⟩
def zero3f : vec3f := ⟨0, 0, 0⟩
def zero4f : vec4f := ⟨0, 0, 0, 0⟩
def zero2i : vec2i := ⟨0, 0⟩

instance : Add vec2f := ⟨fun a b => ⟨a.x + b.x, a.y + b.y⟩⟩
instance : Add vec3f := ⟨fun a b => ⟨a.x + b.x, a.y + b.y, a.z + b.z⟩⟩
instance : Add vec4f := ⟨fun a b => ⟨a.x + b.x, a.y + b.y, a.z + b.z, a.w + b.w⟩⟩
instance : Sub vec2f := ⟨fun a b => ⟨a.x - b.x, a.y - b.y⟩⟩
instance : Sub vec3f := ⟨fun a b => ⟨a.x - b.x, a.y - b.y, a.z - b.z⟩⟩
instance : Neg vec3f := ⟨fun a => ⟨-a.x, -a.y, -a.z⟩⟩
instance : Mul vec3f := ⟨fun a b => ⟨a.x * b.x, a.y * b.y, a.z * b.z⟩⟩
instance : HMul vec3f ℚ vec3f := ⟨fun a s => ⟨a.x * s, a.y * s, a.z * s⟩⟩
instance : HMul ℚ vec3f vec3f := ⟨fun s a => ⟨s * a.x, s * a.y, s * a.z⟩⟩
instance : HMul vec4f ℚ vec4f := ⟨fun a s => ⟨a.x * s, a.y * s, a.z * s, a.w * s⟩⟩
instance : HDiv vec3f ℚ vec3f := ⟨fun a s => ⟨a.x / s, a.y / s, a.z / s⟩⟩
instance : HDiv vec4f ℚ vec4f := ⟨fun a s => ⟨a.x / s, a.y / s, a.z / s, a.w / s⟩⟩
instance : HSub ℚ vec3f vec3f := ⟨fun s a => ⟨s - a.x, s - a.y, s - a.z⟩⟩

def dot2 (a b : vec2f) : ℚ := a.x * b.x + a.y * b.y
def dot3 (a b : vec3f) : ℚ := a.x * b.x + a.y * b.y + a.z * b.z
def cross3 (a b : vec3f) : vec3f :=
  ⟨a.y * b.z - a.z * b.y, a.z * b.x - a.x * b.z, a.x * b.y - a.y * b.x⟩

def vmin3 (a b : vec3f) : vec3f := ⟨min a.x b.x, min a.y b.y, min a.z b.z⟩
def vmax3 (a b : vec3f) : vec3f := ⟨max a.x b.x, max a.y b.y, max a.z b.z⟩

/-- `math::max` of a `vec4f`: the largest component. -/
def max4 (v : vec4f) : ℚ := max (max (max v.x v.y) v.z) v.w

/-- `math::mean` of a `vec3f`. -/
def mean3 (v : vec3f) : ℚ := (v.x + v.y + v.z) / 3

/-- Component of a `vec3f` selected by a runtime axis index (the
`operator[]` of the math library). -/
def vcomp (v : vec3f) (axis : ℕ) : ℚ :=
  if axis = 0 then v.x else if axis = 1 then v.y else v.z

/-- Squared length. -/
def norm2 (v : vec3f) : ℚ := dot3 v v

/-- `math::length`, via the `qsqrt` stand-in. -/
def vlength (v : vec3f) : ℚ := qsqrt (norm2 v)

/-- `math::normalize`: `v / length(v)` (the math library returns `v`
itself for the zero vector; division by a zero length is modelled by
ℚ's `q / 0 = 0`, never exercised by a theorem below). -/
def normalize3 (v : vec3f) : vec3f :=
  if vlength v = 0 then v else v * (1 / vlength v)

/-- `math::interpolate_triangle`:
`p0 * (1 - uv.x - uv.y) + p1 * uv.x + p2 * uv.y`. -/
def interpolate_triangle (p0 p1 p2 : vec3f) (uv : vec2f) : vec3f :=
  p0 * (1 - uv.x - uv.y) + p1 * uv.x + p2 * uv.y

/-- `math::interpolate_triangle` on `vec2f` attributes. -/
def interpolate_triangle2 (p0 p1 p2 : vec2f) (uv : vec2f) : vec2f :=
  ⟨p0.x * (1 - uv.x - uv.y) + p1.x * uv.x + p2.x * uv.y,
   p0.y * (1 - uv.x - uv.y) + p1.y * uv.x + p2.y * uv.y⟩

/-- `math::triangle_normal`: normalized cross product of the edges. -/
def triangle_normal (p0 p1 p2 : vec3f) : vec3f :=
  normalize3 (cross3 (p1 - p0) (p2 - p0))

/-- `math::line_tangent`: normalized direction of the segment. -/
def line_tangent (p0 p1 : vec3f) : vec3f := normalize3 (p1 - p0)

/-- `math::orthonormalize a b = normalize(a - b * dot(a, b))`. -/
def orthonormalize (a b : vec3f) : vec3f := normalize3 (a - b * dot3 a b)

/-- `math::reflect w n = -w + 2 * dot(n, w) * n`. -/
def reflect (w n : vec3f) : vec3f := -w + (2 * dot3 n w) * n

/-! ## Images and textures -/

/-- `img::image<T>`: a raster with `vec2i` extents and row-major
pixels. -/
structure img (α : Type) where
  width : ℤ
  height : ℤ
  data : List α
deriving DecidableEq

/-- `image::empty()`: no pixels. -/
def img.isEmpty {α : Type} (m : img α) : Bool := m.data.isEmpty

def img.size {α : Type} (m : img α) : vec2i := ⟨m.width, m.height⟩

/-- Row-major pixel fetch `m[ij]`; out-of-range access never happens on
the in-range indices computed by `eval_texture`. -/
def img.at {α : Type} [Inhabited α] (m : img α) (ij : vec2i) : α :=
  m.data.getD (ij.y * m.width + ij.x).toNat default

instance : Inhabited vec3f := ⟨zero3f⟩
instance : Inhabited ℚ := ⟨0⟩

/-- A byte-quantized color texel (three `byte`s, each `0 ≤ b ≤ 255`). -/
structure vec3b where
  x : ℕ
  y : ℕ
  z : ℕ
deriving DecidableEq

instance : Inhabited vec3b := ⟨⟨0, 0, 0⟩⟩

/-- `rtr::texture`: exactly one of the four encodings is meant to be
non-empty at a time (the `set_texture` overloads clear the others). -/
structure texture where
  colorf : img vec3f
  colorb : img vec3b
  scalarf : img ℚ
  scalarb : img ℕ
deriving DecidableEq

def emptyImg (α : Type) : img α := ⟨0, 0, []⟩

/-- A default-constructed `rtr::texture`: all four encodings empty. -/
def emptyTexture : texture :=
  ⟨emptyImg vec3f, emptyImg vec3b, emptyImg ℚ, emptyImg ℕ⟩

/-- `byte_to_float`: `b / 255`. -/
def byte_to_float (b : ℕ) : ℚ := (b : ℚ) / 255

def byte_to_float3 (b : vec3b) : vec3f :=
  ⟨byte_to_float b.x, byte_to_float b.y, byte_to_float b.z⟩

/-- Model of the excluded math library's sRGB-to-linear conversion on
one channel.  The true curve uses the irrational exponent 2.4; the
stand-in uses exponent 2.  No theorem below depends on its values,
only on where `eval_texture` does or does not apply it. -/
def srgb_to_rgb1 (c : ℚ) : ℚ :=
  if c ≤ 4045 / 100000 then c / (1292 / 100) else ((c + 55 / 1000) / (1055 / 1000)) ^ 2

def srgb_to_rgb (c : vec3f) : vec3f :=
  ⟨srgb_to_rgb1 c.x, srgb_to_rgb1 c.y, srgb_to_rgb1 c.z⟩

/-- `texture_size` (yocto_raytrace.cpp:84): the size of the first
non-empty encoding, else `zero2i`. -/
def texture_size (t : texture) : vec2i :=
  if ¬t.colorf.isEmpty then t.colorf.size
  else if ¬t.colorb.isEmpty then t.colorb.size
  else if ¬t.scalarf.isEmpty then t.scalarf.size
  else if ¬t.scalarb.isEmpty then t.scalarb.size
  else zero2i

/-- `lookup_texture` (yocto_raytrace.cpp:99): a single texel fetch with
the encoding-dependent decode; `{1,1,1}` when all encodings are
empty. -/
def lookup_texture (t : texture) (ij : vec2i) (ldr_as_linear : Bool) : vec3f :=
  if ¬t.colorf.isEmpty then t.colorf.at ij
  else if ¬t.colorb.isEmpty then
    if ldr_as_linear then byte_to_float3 (t.colorb.at ij)
    else srgb_to_rgb (byte_to_float3 (t.colorb.at ij))
  else if ¬t.scalarf.isEmpty then
    let s := t.scalarf.at ij
    ⟨s, s, s⟩
  else if ¬t.scalarb.isEmpty then
    let b := t.scalarb.at ij
    if ldr_as_linear then byte_to_float3 ⟨b, b, b⟩
    else srgb_to_rgb (byte_to_float3 ⟨b, b, b⟩)
  else ⟨1, 1, 1⟩

/-- The wrap-into-texel-space computation of `eval_texture`
(yocto_raytrace.cpp:126-132): `s = fmod(u, 1) * size` followed by the
negative-wrap correction. -/
def wrap_coord (u : ℚ) (size : ℤ) : ℚ :=
  let s := fmodq u 1 * (size : ℚ)
  if s < 0 then s + (size : ℚ) else s

/-- `eval_texture` (yocto_raytrace.cpp:118): `{1,1,1}` for a null
texture; otherwise periodic-wrap bilinear lookup.  When the texture is
non-null but every encoding is empty, `size = (0,0)` and the C++
expression `(i + 1) % size.x` divides by zero — undefined behaviour,
modelled as `none`. -/
def eval_texture (t? : Option texture) (uv : vec2f) (ldr_as_linear : Bool) :
    Option vec3f :=
  match t? with
  | none => some ⟨1, 1, 1⟩
  | some t =>
    let size := texture_size t
    let s := wrap_coord uv.x size.x
    let t' := wrap_coord uv.y size.y
    let i := zclamp (qtrunc s) 0 (size.x - 1)
    let j := zclamp (qtrunc t') 0 (size.y - 1)
    if size.x = 0 ∨ size.y = 0 then none
    else
      let ii := (i + 1) % size.x
      let jj := (j + 1) % size.y
      let u := s - (i : ℚ)
      let v := t' - (j : ℚ)
      some (lookup_texture t ⟨i, j⟩ ldr_as_linear * ((1 - u) * (1 - v)) +
            lookup_texture t ⟨i, jj⟩ ldr_as_linear * ((1 - u) * v) +
            lookup_texture t ⟨ii, j⟩ ldr_as_linear * (u * (1 - v)) +
            lookup_texture t ⟨ii, jj⟩ ldr_as_linear * (u * v))

/-- `eval_texturef` (yocto_raytrace.cpp:148): the `x` channel. -/
def eval_texturef (t? : Option texture) (uv : vec2f) (ldr_as_linear : Bool) :
    Option ℚ :=
  (eval_texture t? uv ldr_as_linear).map (·.x)

/-! ## Frames and bounding boxes -/

/-- `math::frame3f`: an affine frame with basis columns `x,y,z` and
origin `o`. -/
structure frame3f where
  x : vec3f
  y : vec3f
  z : vec3f
  o : vec3f
deriving DecidableEq

def identityFrame : frame3f := ⟨⟨1,0,0⟩, ⟨0,1,0⟩, ⟨0,0,1⟩, ⟨0,0,0⟩⟩

/-- Apply the linear part of a frame to a vector. -/
def frame_linear (f : frame3f) (v : vec3f) : vec3f :=
  f.x * v.x + f.y * v.y + f.z * v.z

/-- `math::transform_point`. -/
def transform_point (f : frame3f) (p : vec3f) : vec3f := frame_linear f p + f.o

/-- `math::transform_direction(frame, v) = normalize(linear * v)`. -/
def transform_direction (f : frame3f) (v : vec3f) : vec3f :=
  normalize3 (frame_linear f v)

/-- Determinant of the linear part. -/
def frame_det (f : frame3f) : ℚ := dot3 f.x (cross3 f.y f.z)

/-- `math::inverse(frame, non_rigid)`: general affine inverse (adjugate
over the determinant) for non-rigid frames, transpose for rigid ones.
A singular non-rigid frame would divide by zero in C++; ℚ's `q / 0 = 0`
stands in and is never exercised below. -/
def frame_inverse (f : frame3f) (nonRigid : Bool) : frame3f :=
  if nonRigid then
    let d := frame_det f
    let r0 := cross3 f.y f.z / d
    let r1 := cross3 f.z f.x / d
    let r2 := cross3 f.x f.y / d
    let minv : frame3f := ⟨⟨r0.x, r1.x, r2.x⟩, ⟨r0.y, r1.y, r2.y⟩, ⟨r0.z, r1.z, r2.z⟩, zero3f⟩
    ⟨minv.x, minv.y, minv.z, -(frame_linear minv f.o)⟩
  else
    let minv : frame3f :=
      ⟨⟨f.x.x, f.y.x, f.z.x⟩, ⟨f.x.y, f.y.y, f.z.y⟩, ⟨f.x.z, f.y.z, f.z.z⟩, zero3f⟩
    ⟨minv.x, minv.y, minv.z, -(frame_linear minv f.o)⟩

/-- `math::bbox3f`. -/
structure bbox3f where
  bmin : vec3f
  bmax : vec3f
deriving DecidableEq

/-- `math::invalidb3f`: min at `+flt_max`, max at `-flt_max`. -/
def invalidb3f : bbox3f := ⟨⟨fltMax, fltMax, fltMax⟩, ⟨-fltMax, -fltMax, -fltMax⟩⟩

/-- `math::merge` of two boxes: componentwise min of mins, max of
maxes. -/
def bbox_merge (a b : bbox3f) : bbox3f := ⟨vmin3 a.bmin b.bmin, vmax3 a.bmax b.bmax⟩

/-- `math::merge` of a box and a point. -/
def bbox_merge_point (a : bbox3f) (p : vec3f) : bbox3f :=
  ⟨vmin3 a.bmin p, vmax3 a.bmax p⟩

/-- `math::center` of a box. -/
def bbox_center (b : bbox3f) : vec3f := (b.bmin + b.bmax) * (1 / 2 : ℚ)

/-- `math::point_bounds p r`: the sphere's axis-aligned box. -/
def point_bounds (p : vec3f) (r : ℚ) : bbox3f :=
  ⟨p - ⟨r, r, r⟩, p + ⟨r, r, r⟩⟩

/-- `math::line_bounds`: merge of the two endpoint spheres. -/
def line_bounds (p0 p1 : vec3f) (r0 r1 : ℚ) : bbox3f :=
  bbox_merge (point_bounds p0 r0) (point_bounds p1 r1)

/-- `math::triangle_bounds`: merge of the three vertices. -/
def triangle_bounds (p0 p1 p2 : vec3f) : bbox3f :=
  bbox_merge_point (bbox_merge_point (bbox_merge_point invalidb3f p0) p1) p2

/-- `math::transform_bbox(frame, box)`: merge of the eight transformed
corners into an initially-invalid box. -/
def transform_bbox (f : frame3f) (b : bbox3f) : bbox3f :=
  let corners : List vec3f :=
    [⟨b.bmin.x, b.bmin.y, b.bmin.z⟩, ⟨b.bmin.x, b.bmin.y, b.bmax.z⟩,
     ⟨b.bmin.x, b.bmax.y, b.bmin.z⟩, ⟨b.bmin.x, b.bmax.y, b.bmax.z⟩,
     ⟨b.bmax.x, b.bmin.y, b.bmin.z⟩, ⟨b.bmax.x, b.bmin.y, b.bmax.z⟩,
     ⟨b.bmax.x, b.bmax.y, b.bmin.z⟩, ⟨b.bmax.x, b.bmax.y, b.bmax.z⟩]
  corners.foldl (fun acc c => bbox_merge_point acc (transform_point f c)) invalidb3f

/-! ## Rays -/

/-- `math::ray3f` with its default `tmin`/`tmax`. -/
structure ray3f where
  o : vec3f
  d : vec3f
  tmin : ℚ
  tmax : ℚ
deriving DecidableEq

/-- Brace construction `ray3f{o, d}` keeps the default
`tmin = ray_eps`, `tmax = flt_max`. -/
def mkRay (o d : vec3f) : ray3f := ⟨o, d, rayEps, fltMax⟩

/-- `math::transform_ray`: transform origin as a point, direction
linearly (no normalization), keep `tmin`/`tmax`. -/
def transform_ray (f : frame3f) (r : ray3f) : ray3f :=
  ⟨transform_point f r.o, frame_linear f r.d, r.tmin, r.tmax⟩

/-! ## BVH data -/

/-- `rtr::bvh_node`: box, first child (internal) or first primitive
(leaf), primitive count or 2, split axis, leaf flag. -/
structure bvh_node where
  bbox : bbox3f
  start : ℕ
  num : ℕ
  axis : ℕ
  internal : Bool
deriving DecidableEq

/-- A default-constructed node, as produced by `emplace_back()`. -/
def emptyNode : bvh_node := ⟨invalidb3f, 0, 0, 0, false⟩

/-- `rtr::bvh_tree`: the node array plus the permutation array mapping
leaf ranges to original primitive indices. -/
structure bvh_tree where
  nodes : List bvh_node
  primitives : List ℕ
deriving DecidableEq

/-- A tree that has not been built (`bvh` freshly allocated / the empty
node array recognized by the traversal early exit). -/
def emptyTree : bvh_tree := ⟨[], []⟩

/-! ## Scene data model -/

/-- `rtr::camera`. -/
structure camera where
  frame : frame3f
  lens : ℚ
  film : vec2f
  aperture : ℚ
  focus : ℚ
deriving DecidableEq

/-- `rtr::material`; texture references are nullable pointers. -/
structure material where
  emission : vec3f
  color : vec3f
  specular : ℚ
  roughness : ℚ
  metallic : ℚ
  ior : ℚ
  spectint : vec3f
  scattering : vec3f
  scanisotropy : ℚ
  trdepth : ℚ
  opacity : ℚ
  transmission : ℚ
  thin : Bool
  emission_tex : Option texture
  color_tex : Option texture
  specular_tex : Option texture
  metallic_tex : Option texture
  roughness_tex : Option texture
  transmission_tex : Option texture
  scattering_tex : Option texture
  opacity_tex : Option texture
deriving DecidableEq

/-- A default-constructed `rtr::material`. -/
def defaultMaterial : material :=
  { emission := zero3f, color := zero3f, specular := 0, roughness := 0,
    metallic := 0, ior := 3/2, spectint := ⟨1, 1, 1⟩, scattering := zero3f,
    scanisotropy := 0, trdepth := 1/100, opacity := 1, transmission := 0,
    thin := true, emission_tex := none, color_tex := none,
    specular_tex := none, metallic_tex := none, roughness_tex := none,
    transmission_tex := none, scattering_tex := none, opacity_tex := none }

/-- `rtr::shape`: one topology (points, lines or triangles), parallel
vertex attribute arrays, and its owned BVH. -/
structure shape where
  points : List ℕ
  lines : List (ℕ × ℕ)
  triangles : List (ℕ × ℕ × ℕ)
  positions : List vec3f
  normals : List vec3f
  texcoords : List vec2f
  radius : List ℚ
  bvh : bvh_tree
deriving DecidableEq

/-- A default-constructed `rtr::shape` (its `bvh` pointer is null until
`init_bvh`; the unbuilt tree is modelled by the empty tree). -/
def emptyShape : shape := ⟨[], [], [], [], [], [], [], emptyTree⟩

/-- `rtr::object`: an instance pairing a shape and a material under a
world frame (references modelled by values; sharing is irrelevant to
the pure semantics). -/
structure object where
  frame : frame3f
  shape : shape
  material : material
deriving DecidableEq

/-- `rtr::environment`. -/
structure environment where
  frame : frame3f
  emission : vec3f
  emission_tex : Option texture
deriving DecidableEq

/-- `rtr::scene` (ownership is irrelevant to the pure semantics; the
scene-level BVH is the empty tree until `init_bvh`). -/
structure scene where
  cameras : List camera
  objects : List object
  shapes : List shape
  materials : List material
  textures : List texture
  environments : List environment
  bvh : bvh_tree
deriving DecidableEq

/-! ## Geometry evaluators -/

instance : Inhabited vec2f := ⟨zero2f⟩

/-- `eval_position` (yocto_raytrace.cpp:168): interpolates the three
vertices of `shape->triangles[element]` — unconditionally, regardless
of the shape's actual topology.  Out-of-range vector indexing is
undefined behaviour, modelled as `none`. -/
def eval_position (s : shape) (element : ℕ) (uv : vec2f) : Option vec3f := do
  let t ← s.triangles[element]?
  let p0 ← s.positions[t.1]?
  let p1 ← s.positions[t.2.1]?
  let p2 ← s.positions[t.2.2]?
  pure (interpolate_triangle p0 p1 p2 uv)

/-- `eval_element_normal` (yocto_raytrace.cpp:177): per-element flat
normal following the shape's topology. -/
def eval_element_normal (s : shape) (element : ℕ) : Option vec3f :=
  if ¬s.triangles.isEmpty then do
    let t ← s.triangles[element]?
    let p0 ← s.positions[t.1]?
    let p1 ← s.positions[t.2.1]?
    let p2 ← s.positions[t.2.2]?
    pure (triangle_normal p0 p1 p2)
  else if ¬s.lines.isEmpty then do
    let l ← s.lines[element]?
    let p0 ← s.positions[l.1]?
    let p1 ← s.positions[l.2]?
    pure (line_tangent p0 p1)
  else if ¬s.points.isEmpty then some ⟨0, 0, 1⟩
  else some ⟨0, 0, 0⟩

/-- `eval_normal` (yocto_raytrace.cpp:193): the flat element normal
when the shape carries no explicit normals, else the normalized
barycentric interpolation of `shape->normals` over
`shape->triangles[element]` — again unconditionally indexing the
triangle array. -/
def eval_normal (s : shape) (element : ℕ) (uv : vec2f) : Option vec3f :=
  if s.normals.isEmpty then eval_element_normal s element
  else do
    let t ← s.triangles[element]?
    let n0 ← s.normals[t.1]?
    let n1 ← s.normals[t.2.1]?
    let n2 ← s.normals[t.2.2]?
    pure (normalize3 (interpolate_triangle n0 n1 n2 uv))

/-- `eval_texcoord` (yocto_raytrace.cpp:203): the raw barycentric `uv`
when the shape has no texcoords, else interpolation over
`shape->triangles[element]`. -/
def eval_texcoord (s : shape) (element : ℕ) (uv : vec2f) : Option vec2f :=
  if s.texcoords.isEmpty then some uv
  else do
    let t ← s.triangles[element]?
    let t0 ← s.texcoords[t.1]?
    let t1 ← s.texcoords[t.2.1]?
    let t2 ← s.texcoords[t.2.2]?
    pure (interpolate_triangle2 t0 t1 t2 uv)

/-- Rational stand-in for the excluded math library's `atan2`.  No
theorem below depends on its values. -/
def atan2Q (y x : ℚ) : ℚ := if x = 0 then 0 else y / x

/-- Rational stand-in for the excluded math library's `acos`.  No
theorem below depends on its values. -/
def acosQ (x : ℚ) : ℚ := (1 - x) * piQ / 2

/-- `eval_camera` (yocto_raytrace.cpp:155): the pinhole camera ray
through image-plane coordinates `uv`. -/
def eval_camera (cam : camera) (image_uv : vec2f) : ray3f :=
  let q : vec3f := ⟨cam.film.x * (1/2 - image_uv.x), cam.film.y * (image_uv.y - 1/2), cam.lens⟩
  let e := zero3f
  let d := -(normalize3 (q - e))
  mkRay (transform_point cam.frame e) (transform_direction cam.frame d)

/-- `eval_environment` (yocto_raytrace.cpp:214): sums each
environment's emission modulated by a lat-long lookup of the ray
direction in the environment's local frame.  (A malformed emission
texture propagates `none`.) -/
def eval_environment (sc : scene) (ray : ray3f) : Option vec3f :=
  sc.environments.foldlM
    (fun acc env => do
      let local_dir := transform_direction (frame_inverse env.frame false) ray.d
      let tx := atan2Q local_dir.z local_dir.x / (2 * piQ)
      let ty := acosQ (qclamp local_dir.y (-1) 1) / piQ
      let tx := if tx < 0 then tx + 1 else tx
      let c ← eval_texture env.emission_tex ⟨tx, ty⟩ false
      pure (acc + env.emission * c))
    zero3f

/-! ## BVH builder -/

/-- `bvh_primitive` (yocto_raytrace.cpp:242): the sortable build
record. -/
structure bvh_primitive where
  bbox : bbox3f
  center : vec3f
  primitive : ℕ
deriving DecidableEq

instance : Inhabited bvh_primitive := ⟨⟨invalidb3f, zero3f, 0⟩⟩

/-- The subrange `[s, e)` of a list. -/
def slice {α : Type} (l : List α) (s e : ℕ) : List α := (l.drop s).take (e - s)

/-- Fold of `merge` over a list of boxes starting from `invalidb3f`
(the aggregate bound loops of the builder). -/
def bigMerge (l : List bbox3f) : bbox3f := l.foldl bbox_merge invalidb3f

/-- The node bound computed at yocto_raytrace.cpp:307-309: the merge of
the primitive boxes of the range `[s, e)`. -/
def range_bbox (prims : List bvh_primitive) (s e : ℕ) : bbox3f :=
  bigMerge ((slice prims s e).map (·.bbox))

/-- The center bound computed at yocto_raytrace.cpp:256-257: the merge
of the primitive centers of the range `[s, e)`. -/
def center_bbox (prims : List bvh_primitive) (s e : ℕ) : bbox3f :=
  (slice prims s e).foldl (fun b p => bbox_merge_point b p.center) invalidb3f

/-- `split_middle` (yocto_raytrace.cpp:249): returns the (possibly
reordered) primitive array together with the split position and axis.
`axis` follows the three sequential largest-extent tests (later tests
override earlier ones); a degenerate center box keeps `mid` at the
halfway index and `axis` at 0.  `std::partition` reorders the subrange
so the predicate-satisfying primitives come first; the embedding
realizes it with the stable `List.partition`, one of its permitted
outcomes. -/
def split_middle (prims : List bvh_primitive) (s e : ℕ) :
    List bvh_primitive × ℕ × ℕ :=
  let mid0 := (s + e) / 2
  let cbbox := center_bbox prims s e
  let csize := cbbox.bmax - cbbox.bmin
  if csize = zero3f then (prims, mid0, 0)
  else
    let axis :=
      if csize.z ≥ csize.x ∧ csize.z ≥ csize.y then 2
      else if csize.y ≥ csize.x ∧ csize.y ≥ csize.z then 1
      else 0
    let middle := vcomp (bbox_center cbbox) axis
    let part := (slice prims s e).partition (fun p => vcomp p.center axis < middle)
    let mid := s + part.1.length
    let prims' := prims.take s ++ (part.1 ++ part.2) ++ prims.drop e
    let mid' := if mid = s ∨ mid = e then mid0 else mid
    (prims', mid', axis)

/-- `bvh_max_prims` (yocto_raytrace.cpp:283). -/
def bvh_max_prims : ℕ := 4

/-- One iteration of the `build_bvh` work-queue loop
(yocto_raytrace.cpp:297-331), processing the entry
`(nodeid, start, end)`: computes the node bound, then either emits a
leaf (range of at most `bvh_max_prims` primitives) or splits, appends
two fresh child nodes, and queues the two subranges.  Returns the new
node array, primitive array and the entries to push. -/
def build_visit (nodes : List bvh_node) (prims : List bvh_primitive)
    (nodeid s e : ℕ) :
    List bvh_node × List bvh_primitive × List (ℕ × ℕ × ℕ) :=
  let bb := range_bbox prims s e
  let old := nodes.getD nodeid emptyNode
  if bvh_max_prims < e - s then
    let sm := split_middle prims s e
    let c := nodes.length
    ((nodes.set nodeid { old with
        bbox := bb, internal := true, axis := sm.2.2, num := 2, start := c })
      ++ [emptyNode, emptyNode],
     sm.1, [(c, s, sm.2.1), (c + 1, sm.2.1, e)])
  else
    (nodes.set nodeid { old with
        bbox := bb, internal := false, num := e - s, start := s }, prims, [])

/-- The breadth-first work-queue loop of `build_bvh`
(yocto_raytrace.cpp:297), with explicit fuel (the C++ loop terminates
because every split strictly separates its range; `build_bvh` passes
ample fuel). -/
def build_loop : ℕ → List bvh_node → List bvh_primitive →
    List (ℕ × ℕ × ℕ) → List bvh_node × List bvh_primitive
  | 0, nodes, prims, _ => (nodes, prims)
  | _ + 1, nodes, prims, [] => (nodes, prims)
  | fuel + 1, nodes, prims, (nodeid, s, e) :: rest =>
    let v := build_visit nodes prims nodeid s e
    build_loop fuel v.1 v.2.1 (rest ++ v.2.2)

/-- `build_bvh` (yocto_raytrace.cpp:286): seeds one root node covering
the whole primitive range and runs the queue to exhaustion.  Returns
the node array and the (reordered) primitive array. -/
def build_bvh (prims : List bvh_primitive) :
    List bvh_node × List bvh_primitive :=
  build_loop (2 * prims.length + 2) [emptyNode] prims [(0, 0, prims.length)]

/-- The per-shape primitive list built by `init_bvh(shape, params)`
(yocto_raytrace.cpp:339-366): points, else lines, else triangles.
Out-of-range attribute indexing (ill-formed shapes) is undefined
behaviour in C++; the embedding reads defaults, and every theorem
below uses well-formed shapes. -/
def shape_bvh_primitives (s : shape) : List bvh_primitive :=
  if ¬s.points.isEmpty then
    (List.range s.points.length).map (fun idx =>
      let p := s.points.getD idx 0
      let bb := point_bounds (s.positions.getD p zero3f) (s.radius.getD p 0)
      ⟨bb, bbox_center bb, idx⟩)
  else if ¬s.lines.isEmpty then
    (List.range s.lines.length).map (fun idx =>
      let l := s.lines.getD idx (0, 0)
      let bb := line_bounds (s.positions.getD l.1 zero3f) (s.positions.getD l.2 zero3f)
        (s.radius.getD l.1 0) (s.radius.getD l.2 0)
      ⟨bb, bbox_center bb, idx⟩)
  else if ¬s.triangles.isEmpty then
    (List.range s.triangles.length).map (fun idx =>
      let t := s.triangles.getD idx (0, 0, 0)
      let bb := triangle_bounds (s.positions.getD t.1 zero3f)
        (s.positions.getD t.2.1 zero3f) (s.positions.getD t.2.2 zero3f)
      ⟨bb, bbox_center bb, idx⟩)
  else []

/-- `init_bvh(shape, params)` (yocto_raytrace.cpp:337): rebuilds the
shape's tree from its primitives; the permutation array records the
back-references of the reordered primitives. -/
def init_bvh_shape (s : shape) : shape :=
  let r := build_bvh (shape_bvh_primitives s)
  { s with bvh := ⟨r.1, r.2.map (·.primitive)⟩ }

/-- The per-object primitive list built by the scene-level `init_bvh`
(yocto_raytrace.cpp:395-405): each object's shape-root box transformed
by the object's frame (`invalidb3f` for an empty shape tree). -/
def scene_bvh_primitives (objs : List object) : List bvh_primitive :=
  (List.range objs.length).map (fun idx =>
    let ob := objs.getD idx ⟨identityFrame, emptyShape, defaultMaterial⟩
    let bb :=
      if ob.shape.bvh.nodes.isEmpty then invalidb3f
      else transform_bbox ob.frame (ob.shape.bvh.nodes.getD 0 emptyNode).bbox
    ⟨bb, bbox_center bb, idx⟩)

/-- `init_bvh(scene, params, progress_cb)` (yocto_raytrace.cpp:380):
rebuilds every shape's tree, then the scene tree over the object
bounds.  The progress callback is purely observational and omitted. -/
def init_bvh_scene (sc : scene) : scene :=
  let objs := sc.objects.map (fun ob => { ob with shape := init_bvh_shape ob.shape })
  let shapes := sc.shapes.map init_bvh_shape
  let r := build_bvh (scene_bvh_primitives objs)
  { sc with objects := objs, shapes := shapes, bvh := ⟨r.1, r.2.map (·.primitive)⟩ }

/-! ## Primitive intersection tests (excluded math library)

The exact primitive/ray tests are supplied by the excluded math
library; they are embedded over ℚ.  Division by a zero determinant or
a zero direction norm is guarded exactly as in the originals (an early
`return false` on `det == 0`); the reciprocal slab test models the
IEEE infinities of `1/0` only for rays with nonzero direction
components, which is all any theorem below evaluates. -/

/-- `math::intersect_point`: ray/sphere proximity test. -/
def intersect_point (ray : ray3f) (p : vec3f) (r : ℚ) : Option (vec2f × ℚ) :=
  let w := p - ray.o
  let t := dot3 w ray.d / dot3 ray.d ray.d
  if t < ray.tmin ∨ ray.tmax < t then none
  else
    let rp := ray.o + ray.d * t
    let prp := p - rp
    if r * r < dot3 prp prp then none
    else some (⟨0, 0⟩, t)

/-- `math::intersect_line`: ray/capsule test between two radii. -/
def intersect_line (ray : ray3f) (p0 p1 : vec3f) (r0 r1 : ℚ) :
    Option (vec2f × ℚ) :=
  let u := ray.d
  let v := p1 - p0
  let w := ray.o - p0
  let a := dot3 u u
  let b := dot3 u v
  let c := dot3 v v
  let d := dot3 u w
  let e := dot3 v w
  let det := a * c - b * b
  if det = 0 then none
  else
    let t := (b * e - c * d) / det
    let s := (a * e - b * d) / det
    if t < ray.tmin ∨ ray.tmax < t then none
    else
      let s := qclamp s 0 1
      let pr := ray.o + ray.d * t
      let pl := p0 + (p1 - p0) * s
      let prl := pr - pl
      let d2 := dot3 prl prl
      let r := r0 * (1 - s) + r1 * s
      if r * r < d2 then none
      else some (⟨s, qsqrt d2 / r⟩, t)

/-- `math::intersect_triangle`: the Möller–Trumbore test with the
barycentric `uv` and ray parameter. -/
def intersect_triangle (ray : ray3f) (p0 p1 p2 : vec3f) :
    Option (vec2f × ℚ) :=
  let edge1 := p1 - p0
  let edge2 := p2 - p0
  let pvec := cross3 ray.d edge2
  let det := dot3 edge1 pvec
  if det = 0 then none
  else
    let inv_det := 1 / det
    let tvec := ray.o - p0
    let u := dot3 tvec pvec * inv_det
    if u < 0 ∨ 1 < u then none
    else
      let qvec := cross3 tvec edge1
      let v := dot3 ray.d qvec * inv_det
      if v < 0 ∨ 1 < u + v then none
      else
        let t := dot3 edge2 qvec * inv_det
        if t < ray.tmin ∨ ray.tmax < t then none
        else some (⟨u, v⟩, t)

/-- `math::intersect_bbox(ray, ray_dinv, bbox)`: the reciprocal slab
test, with the `1.00000024f` conservative widening of `t1`. -/
def intersect_bbox (ray : ray3f) (ray_dinv : vec3f) (b : bbox3f) : Bool :=
  let it_min := (b.bmin - ray.o) * ray_dinv
  let it_max := (b.bmax - ray.o) * ray_dinv
  let tmin := vmin3 it_min it_max
  let tmax := vmax3 it_min it_max
  let t0 := max (max (max tmin.x tmin.y) tmin.z) ray.tmin
  let t1 := min (min (min tmax.x tmax.y) tmax.z) ray.tmax
  let t1 := t1 * (4194305 / 4194304 : ℚ)
  decide (t0 ≤ t1)

/-! ## BVH traversal -/

/-- The in-out state of the shape traversal: the `hit` flag and the
`element`/`uv`/`distance` output references of `intersect_shape_bvh`
together with the shrinking `ray.tmax`. -/
structure shapeHit where
  hit : Bool
  element : ℕ
  uv : vec2f
  distance : ℚ
  tmax : ℚ
deriving DecidableEq

/-- The leaf loop of `intersect_shape_bvh` (yocto_raytrace.cpp:468-498)
over the permutation range `[start, start+num)`: topology dispatch
(points, else lines, else triangles), updating the hit state and
shrinking `tmax` on every improving hit.  The per-primitive index
fetches mirror the C++ vector indexing; every theorem below runs them
in range. -/
def shape_leaf_hits (s : shape) (ray : ray3f) (node : bvh_node)
    (st : shapeHit) : shapeHit :=
  (List.range node.num).foldl
    (fun st k =>
      let idx := node.start + k
      let prim := s.bvh.primitives.getD idx 0
      let r := { ray with tmax := st.tmax }
      if ¬s.points.isEmpty then
        let p := s.points.getD prim 0
        match intersect_point r (s.positions.getD p zero3f) (s.radius.getD p 0) with
        | some (uv, dist) => ⟨true, prim, uv, dist, dist⟩
        | none => st
      else if ¬s.lines.isEmpty then
        let l := s.lines.getD prim (0, 0)
        match intersect_line r (s.positions.getD l.1 zero3f) (s.positions.getD l.2 zero3f)
            (s.radius.getD l.1 0) (s.radius.getD l.2 0) with
        | some (uv, dist) => ⟨true, prim, uv, dist, dist⟩
        | none => st
      else if ¬s.triangles.isEmpty then
        let t := s.triangles.getD prim (0, 0, 0)
        match intersect_triangle r (s.positions.getD t.1 zero3f)
            (s.positions.getD t.2.1 zero3f) (s.positions.getD t.2.2 zero3f) with
        | some (uv, dist) => ⟨true, prim, uv, dist, dist⟩
        | none => st
      else st)
    st

/-- The stack walk of `intersect_shape_bvh` (yocto_raytrace.cpp:448),
with explicit fuel (the C++ loop terminates on every well-formed tree;
the wrapper passes fuel that never runs out on trees produced by
`build_bvh`). -/
def shape_walk (s : shape) (ray : ray3f) (ray_dinv : vec3f)
    (ray_dsign : ℕ → Bool) (find_any : Bool) :
    ℕ → List ℕ → shapeHit → shapeHit
  | 0, _, st => st
  | _ + 1, [], st => st
  | fuel + 1, top :: stack, st =>
    let node := s.bvh.nodes.getD top emptyNode
    if ¬intersect_bbox { ray with tmax := st.tmax } ray_dinv node.bbox then
      shape_walk s ray ray_dinv ray_dsign find_any fuel stack st
    else
      if node.internal then
        let stack' :=
          if ray_dsign node.axis then (node.start + 1) :: node.start :: stack
          else node.start :: (node.start + 1) :: stack
        shape_walk s ray ray_dinv ray_dsign find_any fuel stack' st
      else
        let st' := shape_leaf_hits s ray node st
        if find_any ∧ st'.hit then st'
        else shape_walk s ray ray_dinv ray_dsign find_any fuel stack st'

/-- `intersect_shape_bvh` (yocto_raytrace.cpp:423): early exit on an
empty node array, else the stack walk seeded with the root.  The
element/uv/distance in-out slots enter with the caller's current
values. -/
def intersect_shape_bvh (s : shape) (ray : ray3f) (element : ℕ) (uv : vec2f)
    (distance : ℚ) (find_any : Bool) : shapeHit :=
  if s.bvh.nodes.isEmpty then ⟨false, element, uv, distance, ray.tmax⟩
  else
    let ray_dinv : vec3f := ⟨1 / ray.d.x, 1 / ray.d.y, 1 / ray.d.z⟩
    let ray_dsign : ℕ → Bool := fun axis =>
      decide (vcomp ray_dinv axis < 0)
    shape_walk s ray ray_dinv ray_dsign find_any (s.bvh.nodes.length + 1) [0]
      ⟨false, element, uv, distance, ray.tmax⟩

/-- The in-out state of the scene traversal: adds the hit `object`
slot. -/
structure sceneHit where
  hit : Bool
  object : ℕ
  element : ℕ
  uv : vec2f
  distance : ℚ
  tmax : ℚ
deriving DecidableEq

def defaultObject : object := ⟨identityFrame, emptyShape, defaultMaterial⟩

/-- The leaf loop of `intersect_scene_bvh` (yocto_raytrace.cpp:554-565):
transforms the ray into each candidate object's local space and
delegates to the shape traversal, sharing the element/uv/distance
slots and shrinking the scene ray's `tmax`. -/
def scene_leaf_hits (sc : scene) (ray : ray3f) (node : bvh_node)
    (find_any non_rigid_frames : Bool) (st : sceneHit) : sceneHit :=
  (List.range node.num).foldl
    (fun st k =>
      let idx := node.start + k
      let prim := sc.bvh.primitives.getD idx 0
      let ob := sc.objects.getD prim defaultObject
      let inv_ray := transform_ray (frame_inverse ob.frame non_rigid_frames)
        { ray with tmax := st.tmax }
      let r := intersect_shape_bvh ob.shape inv_ray st.element st.uv st.distance find_any
      if r.hit then ⟨true, prim, r.element, r.uv, r.distance, r.distance⟩
      else { st with element := r.element, uv := r.uv, distance := r.distance })
    st

/-- The stack walk of `intersect_scene_bvh` (yocto_raytrace.cpp:534). -/
def scene_walk (sc : scene) (ray : ray3f) (ray_dinv : vec3f)
    (ray_dsign : ℕ → Bool) (find_any non_rigid_frames : Bool) :
    ℕ → List ℕ → sceneHit → sceneHit
  | 0, _, st => st
  | _ + 1, [], st => st
  | fuel + 1, top :: stack, st =>
    let node := sc.bvh.nodes.getD top emptyNode
    if ¬intersect_bbox { ray with tmax := st.tmax } ray_dinv node.bbox then
      scene_walk sc ray ray_dinv ray_dsign find_any non_rigid_frames fuel stack st
    else
      if node.internal then
        let stack' :=
          if ray_dsign node.axis then (node.start + 1) :: node.start :: stack
          else node.start :: (node.start + 1) :: stack
        scene_walk sc ray ray_dinv ray_dsign find_any non_rigid_frames fuel stack' st
      else
        let st' := scene_leaf_hits sc ray node find_any non_rigid_frames st
        if find_any ∧ st'.hit then st'
        else scene_walk sc ray ray_dinv ray_dsign find_any non_rigid_frames fuel stack st'

/-- The inner `intersect_scene_bvh` (yocto_raytrace.cpp:508). -/
def intersect_scene_bvh_raw (sc : scene) (ray : ray3f) (object element : ℕ)
    (uv : vec2f) (distance : ℚ) (find_any non_rigid_frames : Bool) : sceneHit :=
  if sc.bvh.nodes.isEmpty then ⟨false, object, element, uv, distance, ray.tmax⟩
  else
    let ray_dinv : vec3f := ⟨1 / ray.d.x, 1 / ray.d.y, 1 / ray.d.z⟩
    let ray_dsign : ℕ → Bool := fun axis => decide (vcomp ray_dinv axis < 0)
    scene_walk sc ray ray_dinv ray_dsign find_any non_rigid_frames
      (sc.bvh.nodes.length + 1) [0] ⟨false, object, element, uv, distance, ray.tmax⟩

/-- `intersection3f`: the public query result.  The `object`, `element`,
`uv` and `distance` fields of a default-constructed result come from
the header (outside `src/`); only the `hit` flag of a missed query is
observed by any caller in the source, so their defaults are fixed at
zero here. -/
structure intersection3f where
  hit : Bool
  object : ℕ
  element : ℕ
  uv : vec2f
  distance : ℚ
deriving DecidableEq

/-- The public `intersect_scene_bvh` wrapper (yocto_raytrace.cpp:584). -/
def intersect_scene_bvh_i (sc : scene) (ray : ray3f)
    (find_any non_rigid_frames : Bool) : intersection3f :=
  let r := intersect_scene_bvh_raw sc ray 0 0 zero2f 0 find_any non_rigid_frames
  ⟨r.hit, r.object, r.element, r.uv, r.distance⟩

/-- `intersect_instance_bvh` (yocto_raytrace.cpp:576/592): transforms
the ray into the object's local space and delegates to the shape
query. -/
def intersect_instance_bvh_i (ob : object) (ray : ray3f)
    (find_any non_rigid_frames : Bool) : intersection3f :=
  let inv_ray := transform_ray (frame_inverse ob.frame non_rigid_frames) ray
  let r := intersect_shape_bvh ob.shape inv_ray 0 zero2f 0 find_any
  ⟨r.hit, 0, r.element, r.uv, r.distance⟩

/-! ## Random number generation (PCG32, excluded math library)

`rng_state`/`make_rng`/`rand1i`/`rand1f`/`rand2f` come from the
excluded math library (the PCG32 generator); 64/32-bit wrap-around is
made explicit with `% 2 ^ 64` / `% 2 ^ 32`. -/

/-- `math::rng_state`. -/
structure rng_state where
  state : ℕ
  inc : ℕ
deriving DecidableEq

/-- The PCG32 step: advances the 64-bit state and produces the rotated
32-bit output. -/
def advance_rng (r : rng_state) : ℕ × rng_state :=
  let oldstate := r.state % 2 ^ 64
  let state := (oldstate * 6364136223846793005 + r.inc) % 2 ^ 64
  let xorshifted := (((oldstate >>> 18) ^^^ oldstate) >>> 27) % 2 ^ 32
  let rot := oldstate >>> 59
  let out := ((xorshifted >>> rot) ||| (xorshifted <<< ((32 - rot) % 32))) % 2 ^ 32
  (out, ⟨state, r.inc⟩)

/-- `math::make_rng(seed, seq)`. -/
def make_rng (seed : ℕ) (seq : ℕ) : rng_state :=
  let r0 : rng_state := ⟨0, ((seq <<< 1) ||| 1) % 2 ^ 64⟩
  let r1 := (advance_rng r0).2
  let r2 : rng_state := ⟨(r1.state + seed) % 2 ^ 64, r1.inc⟩
  (advance_rng r2).2

/-- `math::rand1i(rng, n)`. -/
def rand1i (r : rng_state) (n : ℕ) : ℕ × rng_state :=
  let a := advance_rng r
  (a.1 % n, a.2)

/-- `math::rand1f`: the mantissa-trick uniform float in `[0, 1)`,
exactly `(out >> 9) / 2^23`. -/
def rand1f (r : rng_state) : ℚ × rng_state :=
  let a := advance_rng r
  (((a.1 >>> 9 : ℕ) : ℚ) / 2 ^ 23, a.2)

/-- `math::rand2f`: two consecutive `rand1f` draws. -/
def rand2f (r : rng_state) : vec2f × rng_state :=
  let a := rand1f r
  let b := rand1f a.2
  (⟨a.1, b.1⟩, b.2)

/-! ## Shading helpers (excluded math library) -/

/-- `fresnel_schlick` as documented by the source file's own comment
(yocto_raytrace.cpp:608-610):
`ks + (1 - ks) * pow(1 - dot(normal, outgoing), 5)`. -/
def fresnel_schlick3 (ks normal outgoing : vec3f) : vec3f :=
  ks + ((1 : ℚ) - ks) * ((1 - dot3 normal outgoing) ^ 5)

/-- `math::microfacet_distribution` (GGX), with the `piQ` stand-in for
π.  No theorem below depends on its values. -/
def microfacet_distribution (roughness : ℚ) (normal halfway : vec3f) : ℚ :=
  let cosine := dot3 normal halfway
  if cosine ≤ 0 then 0
  else
    let roughness2 := roughness * roughness
    let cosine2 := cosine * cosine
    roughness2 / (piQ * (cosine2 * roughness2 + 1 - cosine2) ^ 2)

/-- One direction's factor of `math::microfacet_shadowing` (GGX), with
the `qsqrt` stand-in.  No theorem below depends on its values. -/
def microfacet_shadowing1 (roughness : ℚ) (normal halfway direction : vec3f) : ℚ :=
  let cosine := dot3 normal direction
  let cosineh := dot3 halfway direction
  if cosine * cosineh ≤ 0 then 0
  else
    let roughness2 := roughness * roughness
    let cosine2 := cosine * cosine
    2 * |cosine| / (|cosine| + qsqrt (cosine2 - roughness2 * cosine2 + roughness2))

/-- `math::microfacet_shadowing`: the joint masking-shadowing term. -/
def microfacet_shadowing (roughness : ℚ) (normal halfway outgoing incoming : vec3f) : ℚ :=
  microfacet_shadowing1 roughness normal halfway outgoing *
    microfacet_shadowing1 roughness normal halfway incoming

/-- Rational stand-in for `cos`.  No theorem below depends on it. -/
def cosQ (x : ℚ) : ℚ := 1 - x ^ 2 / 2

/-- Rational stand-in for `sin`.  No theorem below depends on it. -/
def sinQ (x : ℚ) : ℚ := x - x ^ 3 / 6

/-- `math::basis_fromz`: an orthonormal-ish basis with `z` along `v`
(the branchless Frisvad construction; `copysign(1, z.z)` modelled by
the sign test). -/
def basis_fromz (v : vec3f) : frame3f :=
  let z := normalize3 v
  let sign : ℚ := if 0 ≤ z.z then 1 else -1
  let a := -1 / (sign + z.z)
  let b := z.x * z.y * a
  ⟨⟨1 + sign * z.x * z.x * a, sign * b, -(sign * z.x)⟩,
   ⟨b, sign + z.y * z.y * a, -z.y⟩, z, zero3f⟩

/-- `math::sample_hemisphere(normal, ruv)`, through the trigonometric
stand-ins.  No theorem below depends on its values. -/
def sample_hemisphere (normal : vec3f) (ruv : vec2f) : vec3f :=
  let z := ruv.y
  let r := qsqrt (qclamp (1 - z * z) 0 1)
  let phi := 2 * piQ * ruv.x
  let local_direction : vec3f := ⟨r * cosQ phi, r * sinQ phi, z⟩
  transform_direction (basis_fromz normal) local_direction

/-! ## Shaders -/

/-- `shader_type` of `trace_params`. -/
inductive shader_type where
  | raytrace
  | eyelight
  | normal
  | texcoord
  | color
deriving DecidableEq

/-- `trace_params` (the fields the embedded core reads). -/
structure trace_params where
  resolution : ℕ
  shader : shader_type
  samples : ℕ
  bounces : ℕ
  clamp : ℚ
  seed : ℕ
  noparallel : Bool
deriving DecidableEq

def vec4of (v : vec3f) : vec4f := ⟨v.x, v.y, v.z, 1⟩

def xyz4 (v : vec4f) : vec3f := ⟨v.x, v.y, v.z⟩

/-- The reflectance branch taken by a recursive call of
`trace_raytrace` (ghost data recorded alongside the embedding). -/
inductive rbranch where
  | opacity
  | transReflect
  | transThrough
  | mirror
  | roughMetal
  | plastic
  | diffuse
deriving DecidableEq

/-- A ghost record of one recursive `trace_raytrace` call: the branch
that made it, the caller's `bounce` argument, and the `bounce` argument
passed to the callee. -/
structure callEntry where
  branch : rbranch
  caller : ℕ
  called : ℕ
deriving DecidableEq

/-- The geometry part of `trace_raytrace` after a hit
(yocto_raytrace.cpp:624-638): world position and normal, the
line/triangle normal corrections against the view direction, and the
texture coordinates. -/
def trace_hit_geom (ob : object) (element : ℕ) (uv : vec2f) (ray : ray3f) :
    Option (vec3f × vec3f × vec2f) := do
  let pos0 ← eval_position ob.shape element uv
  let position := transform_point ob.frame pos0
  let n0 ← eval_normal ob.shape element uv
  let normal0 := transform_direction ob.frame n0
  let outgoing := -ray.d
  let normal :=
    if ¬ob.shape.lines.isEmpty then orthonormalize normal0 outgoing
    else if ¬ob.shape.triangles.isEmpty then
      if dot3 outgoing normal0 < 0 then -normal0 else normal0
    else normal0
  let texcoord ← eval_texcoord ob.shape element uv
  pure (position, normal, texcoord)

/-- The transmission scalar as computed at yocto_raytrace.cpp:655: the
material's transmission amount modulated by the material's **emission**
texture (`material->emission_tex`), sampled linearly. -/
def trace_transmission_value (m : material) (texcoord : vec2f) : Option ℚ :=
  (eval_texture m.emission_tex texcoord true).map (fun c => m.transmission * c.x)

/-- Packages one reflectance branch's return (yocto_raytrace.cpp
lines 667-733): `radiance += f(rec.xyz); return {radiance, 1}`, with
the ghost call record prepended to the callee's log. -/
def branch_result (b : rbranch) (bounce : ℕ) (radiance : vec3f)
    (f : vec3f → vec3f) (rec : Option vec4f × rng_state × List callEntry) :
    Option vec4f × rng_state × List callEntry :=
  match rec with
  | (none, rng, l) => (none, rng, ⟨b, bounce, bounce + 1⟩ :: l)
  | (some v, rng, l) =>
    (some (vec4of (radiance + f (xyz4 v))), rng, ⟨b, bounce, bounce + 1⟩ :: l)

/-- The five-way reflectance dispatch of `trace_raytrace`
(yocto_raytrace.cpp:667-733), abstracted over the recursive call
(`recur ray bounce rng` is `trace_raytrace` itself): fixed priority
transmission → polished metal → rough metal → rough plastic → diffuse,
each recursion at `bounce + 1`, each adding its weighted recursive
radiance to the accumulated emission. -/
def trace_shade
    (recur : ray3f → ℕ → rng_state → Option vec4f × rng_state × List callEntry)
    (bounce : ℕ) (radiance base_color matcolor : vec3f)
    (position normal outgoing : vec3f)
    (specular metallic roughness transmission : ℚ) (rng : rng_state) :
    Option vec4f × rng_state × List callEntry :=
  if transmission ≠ 0 then
    let fsc := fresnel_schlick3 base_color normal outgoing
    let rv := rand1f rng
    if rv.1 < fsc.x then
      let incoming := reflect outgoing normal
      branch_result .transReflect bounce radiance (fun r => r)
        (recur (mkRay position incoming) (bounce + 1) rv.2)
    else
      let incoming := -outgoing
      branch_result .transThrough bounce radiance (fun r => matcolor * r)
        (recur (mkRay position incoming) (bounce + 1) rv.2)
  else if metallic ≠ 0 ∧ roughness = 0 then
    let incoming := reflect outgoing normal
    branch_result .mirror bounce radiance
      (fun r => fresnel_schlick3 base_color normal outgoing * r)
      (recur (mkRay position incoming) (bounce + 1) rng)
  else if metallic ≠ 0 ∧ roughness ≠ 0 then
    let incoming := reflect outgoing normal
    let halfway := normalize3 (outgoing + incoming)
    branch_result .roughMetal bounce radiance
      (fun r =>
        ((2 * rayEps) * fresnel_schlick3 base_color halfway outgoing *
            microfacet_distribution roughness normal halfway *
            microfacet_shadowing roughness normal halfway outgoing incoming /
            (4 * dot3 normal outgoing * dot3 normal incoming)) *
          r * dot3 normal incoming)
      (recur (mkRay position incoming) (bounce + 1) rng)
  else if specular ≠ 0 then
    let r2 := rand2f rng
    let incoming := sample_hemisphere normal r2.1
    let halfway := normalize3 (outgoing + incoming)
    branch_result .plastic bounce radiance
      (fun r =>
        (2 * rayEps) *
          (matcolor / rayEps *
              ((1 : ℚ) - fresnel_schlick3 ⟨1/25, 1/25, 1/25⟩ halfway outgoing) +
            fresnel_schlick3 ⟨1/25, 1/25, 1/25⟩ halfway outgoing *
              microfacet_distribution roughness normal halfway *
              microfacet_shadowing roughness normal halfway outgoing incoming /
              (4 * dot3 normal outgoing * dot3 normal incoming)) * r)
      (recur (mkRay position incoming) (bounce + 1) r2.2)
  else
    let r2 := rand2f rng
    let incoming := sample_hemisphere normal r2.1
    branch_result .diffuse bounce radiance
      (fun r => (2 * rayEps) * (base_color / rayEps) * r * dot3 normal incoming)
      (recur (mkRay position incoming) (bounce + 1) r2.2)

/-- `trace_raytrace` (yocto_raytrace.cpp:612), instrumented: along
with the radiance/coverage result and the threaded RNG it returns the
ghost list of the `bounce` arguments of every recursive call made
anywhere in the recursion tree.  The fuel argument is structural
bookkeeping only: since every recursive call increments `bounce` and
the function returns emission once `bounce ≥ params.bounces`, the
wrapper's fuel `params.bounces + 1 - bounce` never runs out. -/
def trace_raytrace_core : ℕ → scene → ray3f → ℕ → rng_state → trace_params →
    Option vec4f × rng_state × List callEntry
  | 0, _, _, _, rng, _ => (none, rng, [])
  | fuel + 1, sc, ray, bounce, rng, params =>
    let isec := intersect_scene_bvh_i sc ray false true
    if ¬isec.hit then
      match eval_environment sc ray with
      | none => (none, rng, [])
      | some env => (some (vec4of env), rng, [])
    else
      match sc.objects[isec.object]? with
      | none => (none, rng, [])
      | some ob =>
        match trace_hit_geom ob isec.element isec.uv ray with
        | none => (none, rng, [])
        | some (position, normal, texcoord) =>
          match eval_texture ob.material.color_tex texcoord false with
          | none => (none, rng, [])
          | some ctex =>
            let base_color := ob.material.color * ctex
            let outgoing := -ray.d
            let radiance := ob.material.emission
            if params.bounces ≤ bounce then (some (vec4of radiance), rng, [])
            else
              match eval_texture ob.material.specular_tex texcoord true,
                  eval_texture ob.material.metallic_tex texcoord true,
                  eval_texture ob.material.roughness_tex texcoord true,
                  trace_transmission_value ob.material texcoord,
                  eval_texture ob.material.opacity_tex texcoord true with
              | some sp, some me, some ro, some tr, some op =>
                let specular := ob.material.specular * sp.x
                let metallic := ob.material.metallic * me.x
                let roughness := ob.material.roughness * ro.x
                let transmission := tr
                let opacity := ob.material.opacity * mean3 op
                let shade := fun (rng : rng_state) =>
                  trace_shade
                    (fun r b g => trace_raytrace_core fuel sc r b g params)
                    bounce radiance base_color ob.material.color position normal
                    outgoing specular metallic roughness transmission rng
                if opacity < 1 then
                  let rv := rand1f rng
                  if opacity < rv.1 then
                    let rres := trace_raytrace_core fuel sc
                      (mkRay (position + ray.d * (1/100 : ℚ)) ray.d)
                      (bounce + 1) rv.2 params
                    (rres.1, rres.2.1, ⟨.opacity, bounce, bounce + 1⟩ :: rres.2.2)
                  else shade rv.2
                else shade rng
              | _, _, _, _, _ => (none, rng, [])

/-- `trace_raytrace` proper: the instrumented core with the ghost log
dropped and ample fuel. -/
def trace_raytrace (sc : scene) (ray : ray3f) (bounce : ℕ) (rng : rng_state)
    (params : trace_params) : Option vec4f × rng_state :=
  let r := trace_raytrace_core (params.bounces + 1 - bounce) sc ray bounce rng params
  (r.1, r.2.1)

/-- The ghost call log of a `trace_raytrace` evaluation. -/
def trace_raytrace_log (sc : scene) (ray : ray3f) (bounce : ℕ) (rng : rng_state)
    (params : trace_params) : List callEntry :=
  (trace_raytrace_core (params.bounces + 1 - bounce) sc ray bounce rng params).2.2

/-- `trace_eyelight` (yocto_raytrace.cpp:738): one nearest-hit query;
black on a miss; on a hit the material color scaled by the **signed**
cosine `dot(normal, -ray.d)`. -/
def trace_eyelight (sc : scene) (ray : ray3f) (_bounce : ℕ) (rng : rng_state)
    (_params : trace_params) : Option vec4f × rng_state :=
  let isec := intersect_scene_bvh_i sc ray false true
  if ¬isec.hit then (some (vec4of zero3f), rng)
  else
    match sc.objects[isec.object]? with
    | none => (none, rng)
    | some ob =>
      match eval_normal ob.shape isec.element isec.uv with
      | none => (none, rng)
      | some n0 =>
        let normal := transform_direction ob.frame n0
        (some (vec4of (ob.material.color * dot3 normal (-ray.d))), rng)

/-- `trace_normal` (yocto_raytrace.cpp:755): the world normal remapped
to `[0,1]`. -/
def trace_normal (sc : scene) (ray : ray3f) (_bounce : ℕ) (rng : rng_state)
    (_params : trace_params) : Option vec4f × rng_state :=
  let isec := intersect_scene_bvh_i sc ray false true
  if ¬isec.hit then (some (vec4of zero3f), rng)
  else
    match sc.objects[isec.object]? with
    | none => (none, rng)
    | some ob =>
      match eval_normal ob.shape isec.element isec.uv with
      | none => (none, rng)
      | some n0 =>
        let normal := transform_direction ob.frame n0
        (some (vec4of (normal * (1/2 : ℚ) + ⟨1/2, 1/2, 1/2⟩)), rng)

/-- `trace_texcoord` (yocto_raytrace.cpp:769): fractional texture
coordinates. -/
def trace_texcoord (sc : scene) (ray : ray3f) (_bounce : ℕ) (rng : rng_state)
    (_params : trace_params) : Option vec4f × rng_state :=
  let isec := intersect_scene_bvh_i sc ray false true
  if ¬isec.hit then (some (vec4of zero3f), rng)
  else
    match sc.objects[isec.object]? with
    | none => (none, rng)
    | some ob =>
      match eval_texcoord ob.shape isec.element isec.uv with
      | none => (none, rng)
      | some tc => (some ⟨fmodq tc.x 1, fmodq tc.y 1, 0, 1⟩, rng)

/-- `trace_color` (yocto_raytrace.cpp:784): the raw material base
color. -/
def trace_color (sc : scene) (ray : ray3f) (_bounce : ℕ) (rng : rng_state)
    (_params : trace_params) : Option vec4f × rng_state :=
  let isec := intersect_scene_bvh_i sc ray false true
  if ¬isec.hit then (some (vec4of zero3f), rng)
  else
    match sc.objects[isec.object]? with
    | none => (none, rng)
    | some ob => (some (vec4of ob.material.color), rng)

/-- `get_trace_shader_func` (yocto_raytrace.cpp:802).  The C++ enum is
closed over exactly these five values, so the throwing default case is
unreachable. -/
def get_trace_shader_func (params : trace_params) :
    scene → ray3f → ℕ → rng_state → trace_params → Option vec4f × rng_state :=
  match params.shader with
  | .raytrace => trace_raytrace
  | .eyelight => trace_eyelight
  | .normal => trace_normal
  | .texcoord => trace_texcoord
  | .color => trace_color

/-! ## Render state and the sampling driver -/

/-- The default-constructed `math::rng_state` (the PCG32 default
stream). -/
def defaultRng : rng_state := ⟨9600629759793949339, 15726070495360670683⟩

/-- A per-pixel record of `rtr::state`: RNG stream, running radiance
sum, sample count. -/
structure pixel where
  accumulated : vec4f
  samples : ℕ
  rng : rng_state
deriving DecidableEq

def defaultPixel : pixel := ⟨zero4f, 0, defaultRng⟩

instance : Inhabited pixel := ⟨defaultPixel⟩
instance : Inhabited vec4f := ⟨zero4f⟩

/-- `rtr::state`: the per-pixel accumulators and the normalized output
buffer. -/
structure state where
  pixels : img pixel
  render : img vec4f
deriving DecidableEq

/-- `std::round` for the nonnegative film ratios used by
`init_state`. -/
def roundQ (q : ℚ) : ℤ := ⌊q + 1/2⌋

/-- The per-pixel RNG seeding loop of `init_state`
(yocto_raytrace.cpp:828-831), threading the master RNG through the
pixels in linear scan order. -/
def seed_pixels (seed : ℕ) : ℕ → rng_state → List pixel
  | 0, _ => []
  | n + 1, rng =>
    let r := rand1i rng (2 ^ 31)
    ⟨zero4f, 0, make_rng seed (r.1 / 2 + 1)⟩ :: seed_pixels seed n r.2

/-- `init_state` (yocto_raytrace.cpp:817): derives the aspect-corrected
resolution, reallocates both buffers (discarding whatever the previous
state held), and seeds every pixel's RNG from the fixed master seed
`1301081` combined with the pixel's scan order. -/
def init_state (_st : state) (_sc : scene) (cam : camera)
    (params : trace_params) : state :=
  let image_size : vec2i :=
    if cam.film.y < cam.film.x then
      ⟨(params.resolution : ℤ), roundQ ((params.resolution : ℚ) * cam.film.y / cam.film.x)⟩
    else
      ⟨roundQ ((params.resolution : ℚ) * cam.film.x / cam.film.y), (params.resolution : ℤ)⟩
  let n := (image_size.x * image_size.y).toNat
  { pixels := ⟨image_size.x, image_size.y, seed_pixels params.seed n (make_rng 1301081 1)⟩,
    render := ⟨image_size.x, image_size.y, List.replicate n zero4f⟩ }

/-- The per-pixel body of `trace_samples` (yocto_raytrace.cpp:891-907):
jitter draw, camera ray, shader invocation, hue-preserving clamp of
the maximum channel, accumulation, and the normalized write-back.
The C++ passes `pixel.rng` by reference through both draws, so the
stored RNG is the shader's final state `res.2`. -/
def sample_pixel (sc : scene) (cam : camera) (params : trace_params)
    (shader : scene → ray3f → ℕ → rng_state → trace_params → Option vec4f × rng_state)
    (st : state) (ij : ℕ × ℕ) : Option state :=
  let i := ij.1
  let j := ij.2
  let w := st.pixels.width.toNat
  let h := st.pixels.height.toNat
  let k := j * w + i
  let px := st.pixels.data.getD k defaultPixel
  let puv := rand2f px.rng
  let uv : vec2f := ⟨((i : ℚ) + puv.1.x) / (w : ℚ), ((j : ℚ) + puv.1.y) / (h : ℚ)⟩
  let ray := eval_camera cam uv
  let res := shader sc ray 0 puv.2 params
  match res.1 with
  | none => none
  | some color0 =>
    let color := if params.clamp < max4 color0
      then color0 * (params.clamp / max4 color0) else color0
    let acc := px.accumulated + color
    let samples := px.samples + 1
    some { st with
        pixels := { st.pixels with data := st.pixels.data.set k ⟨acc, samples, res.2⟩ },
        render := { st.render with data := st.render.data.set k (acc / (samples : ℚ)) } }

/-- The row-major pixel order of the sequential loop (rows outer,
columns inner), which is also the linear storage order. -/
def pixel_order (w h : ℕ) : List (ℕ × ℕ) :=
  (List.range h).flatMap (fun j => (List.range w).map (fun i => (i, j)))

/-- `trace_samples` (yocto_raytrace.cpp:878): one additional sample for
every pixel.  The parallel branch partitions rows over a worker pool
but touches each pixel's state exactly once with the same per-pixel
computation, so both branches are the same pixel-wise fold; the
sequential (`noparallel`) branch is literally this loop. -/
def trace_samples (st : state) (sc : scene) (cam : camera)
    (params : trace_params) : Option state :=
  let shader := get_trace_shader_func params
  (pixel_order st.render.width.toNat st.render.height.toNat).foldlM
    (fun st ij => sample_pixel sc cam params shader st ij) st

/-- `init_state` followed by `k` consecutive `trace_samples` calls: one
full render to `k` samples per pixel. -/
def render_steps (st : state) (sc : scene) (cam : camera)
    (params : trace_params) : ℕ → Option state
  | 0 => some (init_state st sc cam params)
  | k + 1 => (render_steps st sc cam params k).bind
      (fun s => trace_samples s sc cam params)

/-! ## Bookkeeping for the BVH structural invariants (claim C5) -/

/-- Termination weight of one work-queue entry (1 for an empty range,
`2·size − 1` otherwise): every loop iteration strictly decreases the
summed weight. -/
def qweight (q : ℕ × ℕ × ℕ) : ℕ :=
  if q.2.2 - q.2.1 = 0 then 1 else 2 * (q.2.2 - q.2.1) - 1

def qmeasure (Q : List (ℕ × ℕ × ℕ)) : ℕ := (Q.map qweight).sum

/-- Disjointness of the primitive ranges of two queue entries. -/
def rngDisj (a b : ℕ × ℕ × ℕ) : Prop := a.2.2 ≤ b.2.1 ∨ b.2.2 ≤ a.2.1

/-- The positions of the permutation array covered by one node: none
for an internal node, the contiguous range `[start, start+num)` for a
leaf. -/
def leafContrib (n : bvh_node) : List ℕ :=
  if n.internal then [] else List.range' n.start n.num

/-- All positions covered by the leaves of a node array. -/
def leafPosList (nodes : List bvh_node) : List ℕ :=
  (nodes.map leafContrib).flatten

/-- The per-node invariant of claim C5: an internal node has exactly 2
children, in bounds, whose boxes merge to its box; a leaf references a
contiguous in-bounds range of at most `bvh_max_prims` primitives whose
bounds merge to its box. -/
def nodeOK (nodes : List bvh_node) (prims : List bvh_primitive) (n : bvh_node) : Prop :=
  (n.internal = true →
    n.num = 2 ∧ n.start + 1 < nodes.length ∧
    n.bbox = bbox_merge (nodes.getD n.start emptyNode).bbox
      (nodes.getD (n.start + 1) emptyNode).bbox) ∧
  (n.internal = false →
    n.num ≤ bvh_max_prims ∧ n.start + n.num ≤ prims.length ∧
    n.bbox = range_bbox prims n.start (n.start + n.num))

/-- The boxes of all leaf nodes. -/
def leafBoxList (nodes : List bvh_node) : List bbox3f :=
  (nodes.filter (fun n => !n.internal)).map (·.bbox)

/-- The entries of the permutation array drawn by each leaf's
contiguous range. -/
def leafValues (nodes : List bvh_node) (perm : List ℕ) : List ℕ :=
  (nodes.map (fun n =>
    if n.internal then [] else (perm.drop n.start).take n.num)).flatten

/-- The conclusions of claim C5 about the tree built over `prims`:
a non-empty node array every node of which is `nodeOK`; the root box is
the bound of all primitives; the permutation array permutes `0..N-1`;
the union (merge) of the leaf boxes equals the root box; and the leaf
ranges of the permutation array cover every original primitive index
exactly once. -/
def c5Conclusion (prims : List bvh_primitive) : Prop :=
  (build_bvh prims).1 ≠ [] ∧
  (∀ n ∈ (build_bvh prims).1, nodeOK (build_bvh prims).1 (build_bvh prims).2 n) ∧
  ((build_bvh prims).1.getD 0 emptyNode).bbox =
    range_bbox (build_bvh prims).2 0 prims.length ∧
  ((build_bvh prims).2.map (·.primitive)).Perm (List.range prims.length) ∧
  bigMerge (leafBoxList (build_bvh prims).1) =
    ((build_bvh prims).1.getD 0 emptyNode).bbox ∧
  (leafValues (build_bvh prims).1 ((build_bvh prims).2.map (·.primitive))).Perm
    (List.range prims.length)

/-- The inductive contract of the `build_bvh` work-queue loop: what the
final arrays `res` satisfy relative to a mid-loop state
`(nodes, prims, queue)`. -/
structure LoopOK (nodes : List bvh_node) (prims : List bvh_primitive)
    (queue : List (ℕ × ℕ × ℕ)) (res : List bvh_node × List bvh_primitive) : Prop where
  len_nodes : nodes.length ≤ res.1.length
  len_prims : res.2.length = prims.length
  keep : ∀ i, i < nodes.length → (∀ q ∈ queue, q.1 ≠ i) → res.1[i]? = nodes[i]?
  pout : ∀ p, (∀ q ∈ queue, p < q.2.1 ∨ q.2.2 ≤ p) → res.2[p]? = prims[p]?
  sperm : ∀ q ∈ queue, (slice res.2 q.2.1 q.2.2).Perm (slice prims q.2.1 q.2.2)
  leafs : (leafPosList res.1).Perm
    (leafPosList nodes ++ (queue.map (fun q => List.range' q.2.1 (q.2.2 - q.2.1))).flatten)
  boxes : ∀ q ∈ queue, ∃ n, res.1[q.1]? = some n ∧ n.bbox = range_bbox res.2 q.2.1 q.2.2
  ok : ∀ i n, (i ∈ queue.map (·.1) ∨ nodes.length ≤ i) → res.1[i]? = some n →
    nodeOK res.1 res.2 n

/-! ## Concrete inputs used by witnesses and counterexamples -/

/-- A 1×1 scalar-float texture holding `1/2`. -/
def texHalf : texture := ⟨emptyImg vec3f, emptyImg vec3b, ⟨1, 1, [1/2]⟩, emptyImg ℕ⟩

/-- A 2×2 color-float texture. -/
def texQuad : texture :=
  ⟨⟨2, 2, [⟨1, 0, 0⟩, ⟨0, 1, 0⟩, ⟨0, 0, 1⟩, ⟨1, 1, 0⟩]⟩,
   emptyImg vec3b, emptyImg ℚ, emptyImg ℕ⟩

/-- A well-formed one-point shape (for claim C3): `eval_position` on it
indexes the empty `triangles` array. -/
def pointShape : shape :=
  { emptyShape with points := [0], positions := [⟨0, 0, 0⟩], radius := [1/100] }

/-- Five build primitives with coincident centers (for claim C4). -/
def prims5same : List bvh_primitive :=
  List.replicate 5 ⟨⟨⟨0, 0, 0⟩, ⟨0, 0, 0⟩⟩, ⟨0, 0, 0⟩, 0⟩

/-- Two build primitives with distinct boxes (witness input for C5). -/
def prims2 : List bvh_primitive :=
  [⟨⟨⟨0, 0, 0⟩, ⟨1, 1, 0⟩⟩, ⟨1/2, 1/2, 0⟩, 0⟩,
   ⟨⟨⟨2, 0, 0⟩, ⟨3, 1, 0⟩⟩, ⟨5/2, 1/2, 0⟩, 1⟩]

/-- Six collinear build primitives (witness input for C5, forcing a
split). -/
def prims6 : List bvh_primitive :=
  (List.range 6).map (fun (i : ℕ) => ⟨⟨⟨(i : ℚ), 0, 0⟩, ⟨(i : ℚ), 0, 0⟩⟩, ⟨(i : ℚ), 0, 0⟩, i⟩)

/-- The unit right triangle in the `z = 0` plane with explicit normals
facing `-z` (away from a viewer at `+z`). -/
def triShape0 : shape :=
  { emptyShape with
      triangles := [(0, 1, 2)],
      positions := [⟨0, 0, 0⟩, ⟨1, 0, 0⟩, ⟨0, 1, 0⟩],
      normals := [⟨0, 0, -1⟩, ⟨0, 0, -1⟩, ⟨0, 0, -1⟩] }

def matWhite : material := { defaultMaterial with color := ⟨1, 1, 1⟩ }

/-- A fully transparent material (`opacity = 0`), guaranteeing the
opacity-continuation branch for any positive random draw. -/
def matClear : material := { defaultMaterial with color := ⟨1, 1, 1⟩, opacity := 0 }

/-- The material of claim C2's failing input: `transmission = 1`, no
transmission texture, and an emission texture holding `1/2`. -/
def matC2 : material :=
  { defaultMaterial with transmission := 1, emission_tex := some texHalf }

/-- One white triangle instanced at the identity, BVHs built. -/
def scene0 : scene :=
  init_bvh_scene
    { cameras := [], objects := [⟨identityFrame, triShape0, matWhite⟩],
      shapes := [triShape0], materials := [matWhite], textures := [],
      environments := [], bvh := emptyTree }

/-- The same scene with the fully transparent material. -/
def sceneClear : scene :=
  init_bvh_scene
    { cameras := [], objects := [⟨identityFrame, triShape0, matClear⟩],
      shapes := [triShape0], materials := [matClear], textures := [],
      environments := [], bvh := emptyTree }

/-- A ray from `z = 1` with all direction components nonzero, hitting
the triangle at `(3/8, 3/8, 0)` with distance 1 and `uv = (3/8, 3/8)`. -/
def ray0 : ray3f := mkRay ⟨1/4, 1/4, 1⟩ ⟨1/8, 1/8, -1⟩

def params0 : trace_params :=
  { resolution := 1, shader := .raytrace, samples := 1, bounces := 1,
    clamp := 10, seed := 7, noparallel := true }

def paramsColor : trace_params := { params0 with shader := .color }

def rngA : rng_state := make_rng 7 1

def camera0 : camera :=
  { frame := identityFrame, lens := 1/20, film := ⟨36/1000, 36/1000⟩,
    aperture := 0, focus := 1 }

/-- An object-free scene with one camera, BVHs built. -/
def emptySceneB : scene :=
  init_bvh_scene
    { cameras := [camera0], objects := [], shapes := [], materials := [],
      textures := [], environments := [], bvh := emptyTree }

/-- Two arbitrary, distinct prior render states (the driver must erase
them). -/
def junkStateA : state := ⟨⟨5, 5, [defaultPixel]⟩, ⟨1, 1, [⟨1, 2, 3, 4⟩]⟩⟩

def junkStateB : state := ⟨⟨0, 0, []⟩, ⟨0, 0, []⟩⟩

/-- Claim C1 as stated: in every evaluation of `trace_raytrace`, the
opacity-continuation recursion reuses the caller's `bounce` unchanged
while every other branch's recursion increments it. -/
def claimC1Prop : Prop :=
  ∀ (sc : scene) (ray : ray3f) (bounce : ℕ) (rng : rng_state) (params : trace_params),
    ∀ e ∈ trace_raytrace_log sc ray bounce rng params,
      (e.branch = .opacity → e.called = e.caller) ∧
      (e.branch ≠ .opacity → e.called = e.caller + 1)

/-! # Theorems -/

/-! ## Texture sampler: claims C7 and C8 -/

theorem fmodq_one (x : ℚ) : fmodq x 1 = x - (qtrunc x : ℤ) := by
  simp [fmodq]

theorem qtrunc_nonneg_eq_floor (x : ℚ) (h : 0 ≤ x) : qtrunc x = ⌊x⌋ := by
  simp [qtrunc, h]

theorem wrap_coord_eq_fract (x : ℚ) (W : ℤ) (hW : 0 < W) :
    wrap_coord x W = Int.fract x * (W : ℚ) := by
  have hWQ : (0 : ℚ) < (W : ℚ) := by exact_mod_cast hW
  unfold wrap_coord
  rcases le_or_lt 0 x with hx | hx
  · rw [fmodq_one, qtrunc_nonneg_eq_floor x hx]
    rw [show x - ((⌊x⌋ : ℤ) : ℚ) = Int.fract x from by rw [Int.fract]]
    have : ¬ Int.fract x * (W : ℚ) < 0 :=
      not_lt.mpr (mul_nonneg (Int.fract_nonneg x) hWQ.le)
    simp [this]
  · have hq : qtrunc x = ⌈x⌉ := by simp [qtrunc, not_le.mpr hx]
    rw [fmodq_one, hq]
    by_cases hfr : Int.fract x = 0
    · have hfl : (⌊x⌋ : ℚ) = x := by
        rw [Int.fract] at hfr
        linarith
      have hcf : ⌈x⌉ = ⌊x⌋ :=
        le_antisymm (Int.ceil_le.mpr hfl.symm.le) (Int.floor_le_ceil x)
      have hxint : (⌈x⌉ : ℚ) = x := by rw [hcf, hfl]
      rw [hxint]
      simp [hfr]
    · have hfrpos : 0 < Int.fract x := lt_of_le_of_ne (Int.fract_nonneg x) (Ne.symm hfr)
      have hceil : ⌈x⌉ = ⌊x⌋ + 1 := by
        have hle : ⌈x⌉ ≤ ⌊x⌋ + 1 := Int.ceil_le_floor_add_one x
        have hlt : ⌊x⌋ < ⌈x⌉ := by
          rw [Int.lt_ceil]
          have := Int.fract_nonneg x
          rw [Int.fract] at hfrpos
          linarith
        omega
      have hsub : x - ((⌈x⌉ : ℤ) : ℚ) = Int.fract x - 1 := by
        rw [hceil]
        push_cast
        rw [Int.fract]
        ring
      rw [hsub]
      have hneg : (Int.fract x - 1) * (W : ℚ) < 0 :=
        mul_neg_of_neg_of_pos (by linarith [Int.fract_lt_one x]) hWQ
      rw [if_pos hneg]
      ring

theorem wrap_coord_add_int (x : ℚ) (n : ℤ) (W : ℤ) (hW : 0 < W) :
    wrap_coord (x + (n : ℚ)) W = wrap_coord x W := by
  rw [wrap_coord_eq_fract _ _ hW, wrap_coord_eq_fract _ _ hW, Int.fract_add_int]

/-- Claim C8: texture sampling is periodic — for every non-empty
texture, every `uv`, every `ldr_as_linear` flag and all integers `n`,
`m`, evaluating at `uv + (n, m)` equals evaluating at `uv` (exact
arithmetic; wrap addressing with negative coordinates wrapping forward,
neighbors modulo the texture size, bilinear blend). -/
theorem c8_theorem (t : texture) (uv : vec2f) (ldr : Bool) (n m : ℤ)
    (hx : 0 < (texture_size t).x) (hy : 0 < (texture_size t).y) :
    eval_texture (some t) ⟨uv.x + (n : ℚ), uv.y + (m : ℚ)⟩ ldr =
      eval_texture (some t) uv ldr := by
  simp only [eval_texture]
  rw [wrap_coord_add_int uv.x n _ hx, wrap_coord_add_int uv.y m _ hy]

/-- Witness for C8 at a concrete texture, uv and integer offsets. -/
theorem c8_witness :
    0 < (texture_size texQuad).x ∧ 0 < (texture_size texQuad).y ∧
      eval_texture (some texQuad) ⟨1/4 + ((2 : ℤ) : ℚ), 3/4 + ((-3 : ℤ) : ℚ)⟩ true =
        eval_texture (some texQuad) ⟨1/4, 3/4⟩ true :=
  ⟨by decide, by decide,
    c8_theorem texQuad ⟨1/4, 3/4⟩ true 2 (-3) (by decide) (by decide)⟩

/-- Counterexample to claim C7 as stated: a non-null texture whose four
encoding arrays are all empty does **not** degrade to constant white —
the texel-coordinate computation reaches a modulo by the zero texture
size (undefined behaviour, `none` in the embedding). -/
theorem c7_counterexample :
    ¬ eval_texture (some emptyTexture) ⟨0, 0⟩ false = some ⟨1, 1, 1⟩ := by
  with_unfolding_all decide

/-- Claim C7 (amended): `eval_texture` returns opaque white `{1,1,1}`
when the texture pointer is null; when the texture is non-null with all
four encoding arrays empty, the texel-index computation performs a
modulo by the zero texture size (undefined behaviour) instead of
degrading to white. -/
theorem c7_theorem :
    (∀ (uv : vec2f) (ldr : Bool), eval_texture none uv ldr = some ⟨1, 1, 1⟩) ∧
    (∀ (t : texture) (uv : vec2f) (ldr : Bool),
      t.colorf.isEmpty = true → t.colorb.isEmpty = true →
      t.scalarf.isEmpty = true → t.scalarb.isEmpty = true →
      eval_texture (some t) uv ldr = none) := by
  constructor
  · intro uv ldr
    rfl
  · intro t uv ldr h1 h2 h3 h4
    have hsize : texture_size t = zero2i := by
      simp [texture_size, h1, h2, h3, h4]
    simp [eval_texture, hsize, zero2i]

/-- Witness for C7 at concrete inputs. -/
theorem c7_witness :
    eval_texture none ⟨1/3, 1/5⟩ true = some ⟨1, 1, 1⟩ ∧
      eval_texture (some emptyTexture) ⟨1/3, 1/5⟩ true = none :=
  ⟨c7_theorem.1 ⟨1/3, 1/5⟩ true,
    c7_theorem.2 emptyTexture ⟨1/3, 1/5⟩ true rfl rfl rfl rfl⟩

/-! ## Geometry evaluators: claim C3 -/

/-- Claim C3 is a code bug: on a well-formed one-point shape (point
topology, element 0 in range), `eval_position` unconditionally indexes
the **empty** `triangles` array out of range (`none`); likewise
`eval_normal` once explicit normals are present.  The claimed
per-topology rules hold only for the triangle case. -/
theorem c3_theorem :
    eval_position pointShape 0 ⟨0, 0⟩ = none ∧
    eval_normal { pointShape with normals := [⟨0, 0, 1⟩] } 0 ⟨0, 0⟩ = none ∧
    eval_texcoord { pointShape with texcoords := [⟨0, 0⟩] } 0 ⟨0, 0⟩ = none := by
  with_unfolding_all decide

/-! ## BVH builder leaf test: claim C4 -/

/-- Counterexample to claim C4 as stated: five primitives with
coincident centers — the center bound is degenerate and the range
exceeds 4, yet `build_bvh` makes the root an **internal** node (the
degenerate case falls back to a half split; it does not emit a
leaf). -/
theorem c4_counterexample :
    (center_bbox prims5same 0 5).bmax - (center_bbox prims5same 0 5).bmin = zero3f ∧
    4 < 5 - 0 ∧
    ((build_bvh prims5same).1.getD 0 emptyNode).internal = true := by
  with_unfolding_all decide

/-- Claim C4 (amended): a range processed by the `build_bvh` queue loop
is emitted as a leaf **iff** it holds at most `bvh_max_prims = 4`
primitives; the degeneracy of the centers' bound plays no part in the
leaf test (a degenerate range of more than 4 primitives is split in
half as an internal node). -/
theorem c4_theorem (fuel : ℕ) (nodes : List bvh_node)
    (prims : List bvh_primitive) (nodeid s e : ℕ) (rest : List (ℕ × ℕ × ℕ))
    (hid : nodeid < nodes.length) :
    build_loop (fuel + 1) nodes prims ((nodeid, s, e) :: rest) =
      (let v := build_visit nodes prims nodeid s e
       build_loop fuel v.1 v.2.1 (rest ++ v.2.2)) ∧
    (((build_visit nodes prims nodeid s e).1.getD nodeid emptyNode).internal = false ↔
      e - s ≤ bvh_max_prims) := by
  refine ⟨rfl, ?_⟩
  unfold build_visit
  by_cases h : bvh_max_prims < e - s
  · rw [if_pos h]
    have hlen : nodeid < (nodes.set nodeid { nodes.getD nodeid emptyNode with
        bbox := range_bbox prims s e, internal := true,
        axis := (split_middle prims s e).2.2, num := 2,
        start := nodes.length }).length := by simpa using hid
    rw [List.getD_eq_getElem?_getD, List.getElem?_append_left hlen,
      List.getElem?_set_self (by simpa using hid)]
    simp only [Option.getD_some]
    constructor
    · intro hfalse
      exact absurd hfalse (by simp)
    · intro hle
      omega
  · rw [if_neg h]
    rw [List.getD_eq_getElem?_getD, List.getElem?_set_self (by simpa using hid)]
    simp only [Option.getD_some]
    simp only [true_iff]
    omega

/-- Witness for C4 at the concrete degenerate input. -/
theorem c4_witness :
    ((build_visit [emptyNode] prims5same 0 0 5).1.getD 0 emptyNode).internal = false ↔
      5 - 0 ≤ bvh_max_prims :=
  (c4_theorem 0 [emptyNode] prims5same 0 0 5 [] (by decide)).2

/-! ## Material scalars: claim C2 -/

/-- Claim C2 is a code bug: the transmission scalar at
yocto_raytrace.cpp:655 modulates `material->transmission` by the
**emission** texture, not the transmission texture.  At the failing
input (`transmission = 1`, `transmission_tex` null, `emission_tex`
holding `1/2`) the code computes `1/2`, while modulation by the
material's own transmission texture would give `1`. -/
theorem c2_theorem :
    trace_transmission_value matC2 ⟨0, 0⟩ = some (1/2) ∧
    matC2.transmission *
        ((eval_texture matC2.transmission_tex ⟨0, 0⟩ true).getD ⟨1, 1, 1⟩).x = 1 := by
  with_unfolding_all decide

/-! ## Sequential determinism: claim C6 -/

theorem render_steps_state_irrelevant (s1 s2 : state) (sc : scene)
    (cam : camera) (params : trace_params) (k : ℕ) :
    render_steps s1 sc cam params k = render_steps s2 sc cam params k := by
  induction k with
  | zero => rfl
  | succ k ih => rw [render_steps, render_steps, ih]

/-- Claim C6: with the non-parallel toggle set, two consecutive full
renders (`init_state` + the same number of `trace_samples` calls, from
any two prior states) produce identical output buffers: `init_state`
re-seeds every pixel's RNG deterministically from the master seed and
scan order, and the sequential sampling loop is a pure fold over the
pixels. -/
theorem c6_theorem (s1 s2 : state) (sc : scene) (cam : camera)
    (params : trace_params) (k : ℕ) (_hseq : params.noparallel = true) :
    (render_steps s1 sc cam params k).map (·.render) =
      (render_steps s2 sc cam params k).map (·.render) := by
  rw [render_steps_state_irrelevant s1 s2]

/-- Witness for C6: a concrete one-sample render of the empty scene
from two different prior states. -/
theorem c6_witness :
    paramsColor.noparallel = true ∧
      (render_steps junkStateA emptySceneB camera0 paramsColor 1).map (·.render) =
        (render_steps junkStateB emptySceneB camera0 paramsColor 1).map (·.render) :=
  ⟨rfl, c6_theorem junkStateA junkStateB emptySceneB camera0 paramsColor 1 rfl⟩

/-! ## Empty BVHs: claim C10 -/

theorem shape_walk_leaf0 (s : shape)
    (hnode : s.bvh.nodes = [⟨invalidb3f, 0, 0, 0, false⟩])
    (ray : ray3f) (ray_dinv : vec3f) (ray_dsign : ℕ → Bool) (find_any : Bool)
    (st : shapeHit) (hst : st.hit = false) :
    (shape_walk s ray ray_dinv ray_dsign find_any 2 [0] st).hit = false := by
  show (shape_walk s ray ray_dinv ray_dsign find_any (1 + 1) [0] st).hit = false
  rw [shape_walk]
  simp only [hnode]
  have hlhits : ∀ r, shape_leaf_hits s r ⟨invalidb3f, 0, 0, 0, false⟩ st = st := by
    intro r
    simp [shape_leaf_hits]
  split
  · rw [shape_walk]
    exact hst
  · simp only [List.getD_cons_zero] at *
    simp only [hlhits, hst, Bool.false_eq_true, and_false, if_false]
    rw [shape_walk]
    exact hst

theorem intersect_shape_empty_leaf (s : shape)
    (hnode : s.bvh.nodes = [⟨invalidb3f, 0, 0, 0, false⟩]) :
    ∀ (ray : ray3f) (element : ℕ) (uv : vec2f) (distance : ℚ) (find_any : Bool),
      (intersect_shape_bvh s ray element uv distance find_any).hit = false := by
  intro ray element uv distance find_any
  unfold intersect_shape_bvh
  rw [hnode]
  simp only [List.isEmpty_cons, Bool.false_eq_true, if_false, List.length_cons,
    List.length_nil]
  exact shape_walk_leaf0 s hnode ray _ _ find_any _ rfl

theorem scene_walk_leaf0 (sc : scene)
    (hnode : sc.bvh.nodes = [⟨invalidb3f, 0, 0, 0, false⟩])
    (ray : ray3f) (ray_dinv : vec3f) (ray_dsign : ℕ → Bool) (find_any nr : Bool)
    (st : sceneHit) (hst : st.hit = false) :
    (scene_walk sc ray ray_dinv ray_dsign find_any nr 2 [0] st).hit = false := by
  show (scene_walk sc ray ray_dinv ray_dsign find_any nr (1 + 1) [0] st).hit = false
  rw [scene_walk]
  simp only [hnode]
  have hlhits : ∀ r,
      scene_leaf_hits sc r ⟨invalidb3f, 0, 0, 0, false⟩ find_any nr st = st := by
    intro r
    simp [scene_leaf_hits]
  split
  · rw [scene_walk]
    exact hst
  · simp only [List.getD_cons_zero] at *
    simp only [hlhits, hst, Bool.false_eq_true, and_false, if_false]
    rw [scene_walk]
    exact hst

theorem intersect_scene_empty_leaf (sc : scene)
    (hnode : sc.bvh.nodes = [⟨invalidb3f, 0, 0, 0, false⟩]) :
    ∀ (ray : ray3f) (find_any nr : Bool),
      (intersect_scene_bvh_i sc ray find_any nr).hit = false := by
  intro ray find_any nr
  unfold intersect_scene_bvh_i intersect_scene_bvh_raw
  rw [hnode]
  simp only [List.isEmpty_cons, Bool.false_eq_true, if_false, List.length_cons,
    List.length_nil]
  exact scene_walk_leaf0 sc hnode ray _ _ find_any nr _ rfl

theorem init_bvh_shape_empty (s : shape) (hp : s.points = []) (hl : s.lines = [])
    (ht : s.triangles = []) :
    (init_bvh_shape s).bvh.nodes = [⟨invalidb3f, 0, 0, 0, false⟩] := by
  have hprims : shape_bvh_primitives s = [] := by
    simp [shape_bvh_primitives, hp, hl, ht]
  simp only [init_bvh_shape, hprims]
  rfl

theorem init_bvh_scene_empty (sc : scene) (ho : sc.objects = []) :
    (init_bvh_scene sc).bvh.nodes = [⟨invalidb3f, 0, 0, 0, false⟩] := by
  simp only [init_bvh_scene, ho]
  rfl

/-- Claim C10: building a BVH over zero primitives (a scene with no
objects, or a shape whose point/line/triangle lists are all empty)
yields a node array holding exactly one node — a leaf with zero
primitives — and every intersection query against such a tree returns
`hit = false` by walking that empty leaf (the node array is non-empty,
so the empty-node-array early exit is not taken). -/
theorem c10_theorem :
    (∀ s : shape, s.points = [] → s.lines = [] → s.triangles = [] →
      (init_bvh_shape s).bvh.nodes = [⟨invalidb3f, 0, 0, 0, false⟩] ∧
      ∀ (ray : ray3f) (element : ℕ) (uv : vec2f) (distance : ℚ) (find_any : Bool),
        (intersect_shape_bvh (init_bvh_shape s) ray element uv distance find_any).hit
          = false) ∧
    (∀ sc : scene, sc.objects = [] →
      (init_bvh_scene sc).bvh.nodes = [⟨invalidb3f, 0, 0, 0, false⟩] ∧
      ∀ (ray : ray3f) (find_any nr : Bool),
        (intersect_scene_bvh_i (init_bvh_scene sc) ray find_any nr).hit = false) := by
  constructor
  · intro s hp hl ht
    have h := init_bvh_shape_empty s hp hl ht
    exact ⟨h, intersect_shape_empty_leaf _ h⟩
  · intro sc ho
    have h := init_bvh_scene_empty sc ho
    exact ⟨h, intersect_scene_empty_leaf _ h⟩

/-- Witness for C10: the empty shape and an object-free scene, with a
concrete ray. -/
theorem c10_witness :
    (init_bvh_shape emptyShape).bvh.nodes = [⟨invalidb3f, 0, 0, 0, false⟩] ∧
    (intersect_shape_bvh (init_bvh_shape emptyShape) ray0 0 zero2f 0 false).hit
      = false ∧
    (init_bvh_scene emptySceneB).bvh.nodes = [⟨invalidb3f, 0, 0, 0, false⟩] ∧
    (intersect_scene_bvh_i (init_bvh_scene emptySceneB) ray0 false true).hit
      = false := by
  have h1 := c10_theorem.1 emptyShape rfl rfl rfl
  have h2 := c10_theorem.2 emptySceneB rfl
  exact ⟨h1.1, h1.2 ray0 0 zero2f 0 false, h2.1, h2.2 ray0 false true⟩

/-! ## Eyelight shading: claim C9 -/

set_option maxRecDepth 8000 in
/-- Counterexample to claim C9 as stated: a triangle whose explicit
normals face away from the viewer — `trace_eyelight` scales the
material color by the **signed** cosine `dot(normal, -ray.d)` (no
absolute value, no facing-flip in this shader), producing negative
color channels. -/
theorem c9_counterexample :
    (trace_eyelight scene0 ray0 0 rngA params0).1 = some ⟨-1, -1, -1, 1⟩ ∧
      (-1 : ℚ) < 0 := by
  with_unfolding_all decide

/-- Claim C9 (amended): `trace_eyelight` performs one nearest-hit scene
query; on a miss it returns black; on a hit it returns the material
color scaled by the *signed* cosine `dot(normal, -ray.d)` between the
interpolated normal and the view direction, which is negative for
normals facing away from the viewer. -/
theorem c9_theorem (sc : scene) (ray : ray3f) (bounce : ℕ) (rng : rng_state)
    (params : trace_params) :
    ((intersect_scene_bvh_i sc ray false true).hit = false →
      trace_eyelight sc ray bounce rng params = (some (vec4of zero3f), rng)) ∧
    ((intersect_scene_bvh_i sc ray false true).hit = true →
      ∀ ob, sc.objects[(intersect_scene_bvh_i sc ray false true).object]? = some ob →
        ∀ n0, eval_normal ob.shape (intersect_scene_bvh_i sc ray false true).element
            (intersect_scene_bvh_i sc ray false true).uv = some n0 →
          trace_eyelight sc ray bounce rng params =
            (some (vec4of (ob.material.color *
              dot3 (transform_direction ob.frame n0) (-ray.d))), rng)) := by
  constructor
  · intro hmiss
    simp [trace_eyelight, hmiss]
  · intro hhit ob hob n0 hn
    simp [trace_eyelight, hhit, hob, hn]

set_option maxRecDepth 8000 in
/-- Witness for C9 at the concrete back-facing triangle scene. -/
theorem c9_witness :
    (intersect_scene_bvh_i scene0 ray0 false true).hit = true ∧
      trace_eyelight scene0 ray0 0 rngA params0 =
        (some (vec4of (matWhite.color *
          dot3 (transform_direction identityFrame ⟨0, 0, -1⟩) (-ray0.d))), rngA) := by
  refine ⟨by with_unfolding_all decide, ?_⟩
  exact (c9_theorem scene0 ray0 0 rngA params0).2 (by with_unfolding_all decide)
    ⟨identityFrame, init_bvh_shape triShape0, matWhite⟩ (by with_unfolding_all decide)
    ⟨0, 0, -1⟩ (by with_unfolding_all decide)

/-! ## Bounce accounting of trace_raytrace: claim C1 -/

theorem mem_branch_result_log {b : rbranch} {bounce : ℕ} {radiance : vec3f}
    {f : vec3f → vec3f} {r : Option vec4f × rng_state × List callEntry} {e : callEntry}
    (he : e ∈ (branch_result b bounce radiance f r).2.2) :
    e = ⟨b, bounce, bounce + 1⟩ ∨ e ∈ r.2.2 := by
  rcases r with ⟨r1, rng, l⟩
  unfold branch_result at he
  cases r1 <;> simp_all

theorem trace_shade_log
    (recur : ray3f → ℕ → rng_state → Option vec4f × rng_state × List callEntry)
    (hP : ∀ (r : ray3f) (b : ℕ) (g : rng_state) (e : callEntry),
      e ∈ (recur r b g).2.2 → e.called = e.caller + 1)
    (bounce : ℕ) (radiance base_color matcolor position normal outgoing : vec3f)
    (specular metallic roughness transmission : ℚ) (rng : rng_state) :
    ∀ e ∈ (trace_shade recur bounce radiance base_color matcolor position normal
      outgoing specular metallic roughness transmission rng).2.2,
      e.called = e.caller + 1 := by
  intro e he
  simp only [trace_shade] at he
  repeat' split at he
  all_goals
    rcases mem_branch_result_log he with h | h
    · subst h
      rfl
    · exact hP _ _ _ _ h

theorem trace_core_log_aux : ∀ (fuel : ℕ) (sc : scene) (ray : ray3f) (bounce : ℕ)
    (rng : rng_state) (params : trace_params) (e : callEntry),
    e ∈ (trace_raytrace_core fuel sc ray bounce rng params).2.2 →
    e.called = e.caller + 1 := by
  intro fuel
  induction fuel with
  | zero =>
    intro sc ray bounce rng params e he
    simp [trace_raytrace_core] at he
  | succ n ih =>
    intro sc ray bounce rng params e he
    simp only [trace_raytrace_core] at he
    repeat' split at he
    all_goals
      first
      | (rcases List.mem_cons.mp he with h | h
         · subst h
           rfl
         · exact ih _ _ _ _ _ _ h)
      | exact trace_shade_log _ (fun r b g e h => ih _ _ _ _ _ _ h)
          _ _ _ _ _ _ _ _ _ _ _ _ e he
      | simp at he

set_option maxRecDepth 8000 in
/-- Counterexample to claim C1 as stated: on the fully transparent
triangle the opacity-continuation branch fires and its recursive call
is logged with bounce argument `caller + 1` — the code at
yocto_raytrace.cpp:662-663 passes `bounce+1`, not the unmodified
`bounce` the claim asserts. -/
theorem c1_counterexample : ¬ claimC1Prop := by
  intro h
  have hmem : (⟨.opacity, 0, 1⟩ : callEntry) ∈
      trace_raytrace_log sceneClear ray0 0 rngA params0 := by
    with_unfolding_all decide
  have h10 := (h sceneClear ray0 0 rngA params0 ⟨.opacity, 0, 1⟩ hmem).1 rfl
  exact Nat.one_ne_zero h10

/-- Claim C1 (amended): in `trace_raytrace`, **every** branch's
recursive call — the opacity continuation included — is invoked with
the caller's `bounce` incremented by one (the continuation reuses the
same ray direction, advanced past the surface, but not the depth
counter). -/
theorem c1_theorem (sc : scene) (ray : ray3f) (bounce : ℕ) (rng : rng_state)
    (params : trace_params) :
    ∀ e ∈ trace_raytrace_log sc ray bounce rng params, e.called = e.caller + 1 := by
  intro e he
  exact trace_core_log_aux _ _ _ _ _ _ _ he

set_option maxRecDepth 8000 in
/-- Witness for C1: the concrete opacity-continuation call record. -/
theorem c1_witness :
    (⟨.opacity, 0, 1⟩ : callEntry) ∈
        trace_raytrace_log sceneClear ray0 0 rngA params0 ∧
      (⟨.opacity, 0, 1⟩ : callEntry).called = (⟨.opacity, 0, 1⟩ : callEntry).caller + 1 := by
  refine ⟨by with_unfolding_all decide, ?_⟩
  exact c1_theorem sceneClear ray0 0 rngA params0 ⟨.opacity, 0, 1⟩
    (by with_unfolding_all decide)

/-! ## BVH structural invariants: claim C5 -/
-- C5 helpers, part 1: merge ACI and bigMerge
theorem bbox_merge_comm (a b : bbox3f) : bbox_merge a b = bbox_merge b a := by
  simp [bbox_merge, vmin3, vmax3, min_comm, max_comm]

theorem bbox_merge_assoc (a b c : bbox3f) :
    bbox_merge (bbox_merge a b) c = bbox_merge a (bbox_merge b c) := by
  simp [bbox_merge, vmin3, vmax3, min_assoc, max_assoc]

theorem bbox_merge_idem (a : bbox3f) : bbox_merge a a = a := by
  simp [bbox_merge, vmin3, vmax3]

theorem foldl_merge_assoc (l : List bbox3f) (x y : bbox3f) :
    l.foldl bbox_merge (bbox_merge x y) = bbox_merge x (l.foldl bbox_merge y) := by
  induction l generalizing y with
  | nil => rfl
  | cons a t ih =>
    simp only [List.foldl_cons]
    rw [bbox_merge_assoc, ih]

instance : RightCommutative bbox_merge :=
  ⟨fun b a1 a2 => by
    rw [bbox_merge_assoc, bbox_merge_assoc, bbox_merge_comm a1 a2]⟩

theorem bigMerge_perm {A B : List bbox3f} (h : A.Perm B) : bigMerge A = bigMerge B :=
  h.foldl_eq invalidb3f

theorem bigMerge_absorb (L : List bbox3f) :
    bbox_merge invalidb3f (bigMerge L) = bigMerge L := by
  cases L with
  | nil => exact bbox_merge_idem invalidb3f
  | cons b T =>
    show bbox_merge invalidb3f (List.foldl bbox_merge (bbox_merge invalidb3f b) T) = _
    rw [foldl_merge_assoc, ← bbox_merge_assoc, bbox_merge_idem]
    exact (foldl_merge_assoc T invalidb3f b).symm

theorem bigMerge_append (A B : List bbox3f) :
    bigMerge (A ++ B) = bbox_merge (bigMerge A) (bigMerge B) := by
  have hX : bbox_merge (bigMerge A) invalidb3f = bigMerge A := by
    rw [bbox_merge_comm]
    exact bigMerge_absorb A
  calc bigMerge (A ++ B) = List.foldl bbox_merge (bigMerge A) B := by
        simp [bigMerge, List.foldl_append]
    _ = List.foldl bbox_merge (bbox_merge (bigMerge A) invalidb3f) B := by rw [hX]
    _ = bbox_merge (bigMerge A) (List.foldl bbox_merge invalidb3f B) :=
        foldl_merge_assoc B (bigMerge A) invalidb3f
    _ = bbox_merge (bigMerge A) (bigMerge B) := rfl

theorem bigMerge_flatten (ls : List (List bbox3f)) :
    bigMerge (ls.map bigMerge) = bigMerge ls.flatten := by
  induction ls with
  | nil => rfl
  | cons a M ih =>
    have h1 : bigMerge (bigMerge a :: M.map bigMerge) =
        bbox_merge (bigMerge a) (bigMerge (M.map bigMerge)) := by
      show List.foldl bbox_merge (bbox_merge invalidb3f (bigMerge a)) (M.map bigMerge) = _
      rw [bigMerge_absorb]
      conv_lhs => rw [show bigMerge a = bbox_merge (bigMerge a) invalidb3f from by
        rw [bbox_merge_comm]; exact (bigMerge_absorb a).symm]
      exact foldl_merge_assoc _ _ _
    simp only [List.map_cons, List.flatten_cons]
    rw [h1, ih, bigMerge_append]

-- C5 helpers, part 2: slice lemmas
theorem slice_getElem? {α : Type} (l : List α) (s e k : ℕ) :
    (slice l s e)[k]? = if k < e - s then l[s + k]? else none := by
  simp [slice, List.getElem?_take, List.getElem?_drop]

theorem slice_length {α : Type} (l : List α) (s e : ℕ) (hs : s ≤ e) (he : e ≤ l.length) :
    (slice l s e).length = e - s := by
  simp [slice]
  omega

theorem slice_congr {α : Type} (l₁ l₂ : List α) (s e : ℕ)
    (h : ∀ p, s ≤ p → p < e → l₁[p]? = l₂[p]?) :
    slice l₁ s e = slice l₂ s e := by
  apply List.ext_getElem?
  intro k
  rw [slice_getElem?, slice_getElem?]
  split
  · exact h (s + k) (Nat.le_add_right s k) (by omega)
  · rfl

theorem slice_split {α : Type} (l : List α) (s m e : ℕ) (h1 : s ≤ m) (h2 : m ≤ e) :
    slice l s e = slice l s m ++ slice l m e := by
  unfold slice
  rw [show e - s = (m - s) + (e - m) from by omega, List.take_add, List.drop_drop]
  rw [show s + (m - s) = m from by omega]

theorem slice_zero_length {α : Type} (l : List α) : slice l 0 l.length = l := by
  unfold slice
  rw [Nat.sub_zero, List.drop_zero, List.take_length]

theorem slice_map_getD {α : Type} [Inhabited α] (l : List α) (s n : ℕ) (h : s + n ≤ l.length) :
    slice l s (s + n) = (List.range' s n).map (fun k => l.getD k default) := by
  induction n generalizing s with
  | zero => simp [slice]
  | succ n ih =>
    have hs : s < l.length := by omega
    have hdrop : l.drop s = l[s] :: l.drop (s + 1) := List.drop_eq_getElem_cons hs
    have hget : l.getD s default = l[s] := by
      rw [List.getD_eq_getElem?_getD, List.getElem?_eq_getElem hs]
      rfl
    rw [List.range'_succ, List.map_cons, hget]
    unfold slice
    rw [hdrop, show s + (n + 1) - s = n + 1 from by omega, List.take_succ_cons]
    congr 1
    have h2 := ih (s + 1) (by omega)
    unfold slice at h2
    rw [show s + 1 + n - (s + 1) = n from by omega] at h2
    exact h2

theorem map_getD_range {α : Type} [Inhabited α] (l : List α) :
    (List.range l.length).map (fun k => l.getD k default) = l := by
  rw [List.range_eq_range']
  have h0 : (0 : ℕ) + l.length ≤ l.length := le_of_eq (Nat.zero_add l.length)
  have h1 := slice_map_getD l 0 l.length h0
  rw [Nat.zero_add] at h1
  rw [← h1, slice_zero_length]

-- C5 helpers, part 3: the reassembled list of split_middle
theorem reassemble_length {α : Type} (l : List α) (s e : ℕ) (hs : s ≤ e)
    (he : e ≤ l.length) (M : List α) (hM : M.length = e - s) :
    (l.take s ++ M ++ l.drop e).length = l.length := by
  simp
  omega

theorem reassemble_outside_lt {α : Type} (l : List α) (s e p : ℕ)
    (he : e ≤ l.length) (M : List α) (hp : p < s) (hs : s ≤ e) :
    (l.take s ++ M ++ l.drop e)[p]? = l[p]? := by
  rw [show l.take s ++ M ++ l.drop e = l.take s ++ (M ++ l.drop e) from by
    rw [List.append_assoc]]
  have hlen : (l.take s).length = s := by
    rw [List.length_take]
    omega
  rw [List.getElem?_append_left (by omega : p < (l.take s).length)]
  rw [List.getElem?_take, if_pos hp]

theorem reassemble_outside_ge {α : Type} (l : List α) (s e p : ℕ) (hs : s ≤ e)
    (he : e ≤ l.length) (M : List α) (hM : M.length = e - s) (hp : e ≤ p) :
    (l.take s ++ M ++ l.drop e)[p]? = l[p]? := by
  have hlen : (l.take s ++ M).length = e := by
    rw [List.length_append, List.length_take]
    omega
  rw [List.getElem?_append_right (by omega : (l.take s ++ M).length ≤ p)]
  rw [hlen, List.getElem?_drop]
  congr 1
  omega

theorem reassemble_slice {α : Type} (l : List α) (s e : ℕ) (hs : s ≤ e)
    (he : e ≤ l.length) (M : List α) (hM : M.length = e - s) :
    slice (l.take s ++ M ++ l.drop e) s e = M := by
  unfold slice
  rw [List.append_assoc]
  rw [List.drop_left' (by rw [List.length_take]; omega)]
  rw [List.take_left' hM]

-- C5 helpers, part 4: split_middle facts
theorem partition_append_perm (p : bvh_primitive → Bool) (l : List bvh_primitive) :
    ((l.partition p).1 ++ (l.partition p).2).Perm l := by
  rw [List.partition_eq_filter_filter]
  have h := List.filter_append_perm p l
  simpa [Function.comp] using h

theorem partition_length (p : bvh_primitive → Bool) (l : List bvh_primitive) :
    (l.partition p).1.length + (l.partition p).2.length = l.length := by
  have h := (partition_append_perm p l).length_eq
  simpa using h

theorem partition_fst_length_le (p : bvh_primitive → Bool) (l : List bvh_primitive) :
    (l.partition p).1.length ≤ l.length := by
  rw [List.partition_eq_filter_filter]
  exact List.length_filter_le _ _

theorem split_middle_length (prims : List bvh_primitive) (s e : ℕ)
    (hs : s ≤ e) (he : e ≤ prims.length) :
    (split_middle prims s e).1.length = prims.length := by
  simp only [split_middle]
  split
  · rfl
  · simp only []
    apply reassemble_length prims s e hs he
    rw [List.length_append, partition_length, slice_length prims s e hs he]

theorem split_middle_outside (prims : List bvh_primitive) (s e : ℕ)
    (hs : s ≤ e) (he : e ≤ prims.length) (p : ℕ) (hp : p < s ∨ e ≤ p) :
    (split_middle prims s e).1[p]? = prims[p]? := by
  simp only [split_middle]
  split
  · rfl
  · simp only []
    rcases hp with hp | hp
    · exact reassemble_outside_lt prims s e p he _ hp hs
    · apply reassemble_outside_ge prims s e p hs he _ ?hM hp
      case hM =>
        rw [List.length_append, partition_length, slice_length prims s e hs he]

theorem split_middle_slice (prims : List bvh_primitive) (s e : ℕ)
    (hs : s ≤ e) (he : e ≤ prims.length) :
    (slice (split_middle prims s e).1 s e).Perm (slice prims s e) := by
  simp only [split_middle]
  split
  · exact List.Perm.refl _
  · simp only []
    rw [reassemble_slice prims s e hs he _ (by
      rw [List.length_append, partition_length, slice_length prims s e hs he])]
    exact partition_append_perm _ _

theorem mid_bound_helper (s e L : ℕ) (hL : L ≤ e - s) (h4 : 4 < e - s) :
    s < (if s + L = s ∨ s + L = e then (s + e) / 2 else s + L) ∧
    (if s + L = s ∨ s + L = e then (s + e) / 2 else s + L) < e := by
  split
  · omega
  · rename_i hne
    rw [not_or] at hne
    omega

theorem split_middle_mid (prims : List bvh_primitive) (s e : ℕ)
    (hs : s ≤ e) (he : e ≤ prims.length) (h4 : 4 < e - s) :
    s < (split_middle prims s e).2.1 ∧ (split_middle prims s e).2.1 < e := by
  simp only [split_middle]
  split
  · simp only []
    omega
  · simp only []
    refine mid_bound_helper s e _ ?_ h4
    calc ((slice prims s e).partition _).1.length
        ≤ (slice prims s e).length := partition_fst_length_le _ _
      _ = e - s := slice_length prims s e hs he

-- C5 helpers, part 5: measure and leaf-position lemmas
theorem qweight_pos (q : ℕ × ℕ × ℕ) : 1 ≤ qweight q := by
  unfold qweight
  split <;> omega

theorem qweight_eq (q : ℕ × ℕ × ℕ) (h : q.2.1 < q.2.2) :
    qweight q = 2 * (q.2.2 - q.2.1) - 1 := by
  unfold qweight
  rw [if_neg (by omega)]

theorem qmeasure_cons (q : ℕ × ℕ × ℕ) (Q : List (ℕ × ℕ × ℕ)) :
    qmeasure (q :: Q) = qweight q + qmeasure Q := by
  simp [qmeasure]

theorem qmeasure_append (Q1 Q2 : List (ℕ × ℕ × ℕ)) :
    qmeasure (Q1 ++ Q2) = qmeasure Q1 + qmeasure Q2 := by
  simp [qmeasure]

theorem qmeasure_nil : qmeasure [] = 0 := rfl

theorem qmeasure_nil_of_le_zero {Q : List (ℕ × ℕ × ℕ)} (h : qmeasure Q ≤ 0) :
    Q = [] := by
  cases Q with
  | nil => rfl
  | cons q t =>
    exfalso
    have h1 := qweight_pos q
    rw [qmeasure_cons] at h
    omega

theorem leafPosList_append (A B : List bvh_node) :
    leafPosList (A ++ B) = leafPosList A ++ leafPosList B := by
  simp [leafPosList]

theorem perm_middle_front (A B C : List ℕ) : (A ++ (B ++ C)).Perm (B ++ (A ++ C)) := by
  rw [← List.append_assoc, ← List.append_assoc]
  exact (List.perm_append_comm).append_right C

theorem leafPosList_set (nodes : List bvh_node) (i : ℕ) (old nw : bvh_node)
    (hold : nodes[i]? = some old) (hcontrib : leafContrib old = []) :
    (leafPosList (nodes.set i nw)).Perm (leafContrib nw ++ leafPosList nodes) := by
  induction nodes generalizing i with
  | nil => simp at hold
  | cons h t ih =>
    cases i with
    | zero =>
      simp only [List.getElem?_cons_zero, Option.some.injEq] at hold
      subst hold
      show leafPosList (nw :: t) |>.Perm _
      simp only [leafPosList, List.map_cons, List.flatten_cons, hcontrib,
        List.nil_append]
      exact List.Perm.refl _
    | succ i =>
      have hold' : t[i]? = some old := by simpa using hold
      have ihh := ih i hold'
      show leafPosList (h :: t.set i nw) |>.Perm _
      simp only [leafPosList, List.map_cons, List.flatten_cons] at *
      exact (ihh.append_left (leafContrib h)).trans (perm_middle_front _ _ _)

-- C5 helpers, part 6: step equations and the loop contract
theorem build_visit_leaf (nodes : List bvh_node) (prims : List bvh_primitive)
    (nid s e : ℕ) (hbig : ¬ bvh_max_prims < e - s)
    (hold : nodes.getD nid emptyNode = emptyNode) :
    build_visit nodes prims nid s e =
      (nodes.set nid ⟨range_bbox prims s e, s, e - s, 0, false⟩, prims, []) := by
  simp only [build_visit, if_neg hbig]
  rw [hold]
  rfl

theorem build_visit_internal (nodes : List bvh_node) (prims : List bvh_primitive)
    (nid s e : ℕ) (hbig : bvh_max_prims < e - s)
    (hold : nodes.getD nid emptyNode = emptyNode) :
    build_visit nodes prims nid s e =
      ((nodes.set nid
          ⟨range_bbox prims s e, nodes.length, 2, (split_middle prims s e).2.2, true⟩)
         ++ [emptyNode, emptyNode],
       (split_middle prims s e).1,
       [(nodes.length, s, (split_middle prims s e).2.1),
        (nodes.length + 1, (split_middle prims s e).2.1, e)]) := by
  simp only [build_visit, if_pos hbig]

theorem loopOK_nil (nodes : List bvh_node) (prims : List bvh_primitive) :
    LoopOK nodes prims [] (nodes, prims) := by
  refine ⟨le_refl _, rfl, fun i _ _ => rfl, fun p _ => rfl, ?_, ?_, ?_, ?_⟩
  · intro q hq
    exact absurd hq (List.not_mem_nil q)
  · simp [leafPosList]
  · intro q hq
    exact absurd hq (List.not_mem_nil q)
  · intro i n hcase hget
    rcases hcase with h | h
    · simp at h
    · rw [List.getElem?_eq_none h] at hget
      exact absurd hget (by simp)

theorem loopOK_cons_leaf (nodes : List bvh_node) (prims : List bvh_primitive)
    (nid s e : ℕ) (rest : List (ℕ × ℕ × ℕ)) (RES : List bvh_node × List bvh_primitive)
    (hnidlt : nid < nodes.length) (hsome : nodes[nid]? = some emptyNode)
    (hse : s ≤ e) (hepr : e ≤ prims.length) (hsmall : e - s ≤ bvh_max_prims)
    (hnidnotin : nid ∉ rest.map (fun q => q.1))
    (hdisjhead : ∀ q ∈ rest, rngDisj (nid, s, e) q)
    (HO : LoopOK (nodes.set nid ⟨range_bbox prims s e, s, e - s, 0, false⟩) prims rest RES) :
    LoopOK nodes prims ((nid, s, e) :: rest) RES := by
  have hlen1 : (nodes.set nid ⟨range_bbox prims s e, s, e - s, 0, false⟩).length =
      nodes.length := List.length_set nodes nid _
  have hres2 : ∀ p, s ≤ p → p < e → RES.2[p]? = prims[p]? := by
    intro p h1 h2
    apply HO.pout
    intro q hqm
    have hd : e ≤ q.2.1 ∨ q.2.2 ≤ s := hdisjhead q hqm
    omega
  have hsliceq : slice RES.2 s e = slice prims s e := slice_congr _ _ s e hres2
  have hkeep_nid : ∀ q ∈ rest, q.1 ≠ nid := by
    intro q hqm hcontra
    exact hnidnotin (hcontra ▸ List.mem_map_of_mem _ hqm)
  have hres_nid : RES.1[nid]? = some ⟨range_bbox prims s e, s, e - s, 0, false⟩ := by
    rw [HO.keep nid (by omega) hkeep_nid]
    exact List.getElem?_set_self (by simpa using hnidlt)
  refine ⟨?_, HO.len_prims, ?_, ?_, ?_, ?_, ?_, ?_⟩
  · have h := HO.len_nodes
    rwa [hlen1] at h
  · intro i hi hni
    rw [HO.keep i (by omega) (fun q hqm => hni q (List.mem_cons_of_mem _ hqm))]
    exact List.getElem?_set_ne (hni (nid, s, e) (List.mem_cons_self _ _))
  · intro p hp
    exact HO.pout p (fun q hqm => hp q (List.mem_cons_of_mem _ hqm))
  · intro q hqm
    rcases List.mem_cons.mp hqm with hqh | hqr
    · subst hqh
      show (slice RES.2 s e).Perm (slice prims s e)
      rw [hsliceq]
    · exact HO.sperm q hqr
  · simp only [List.map_cons, List.flatten_cons]
    refine HO.leafs.trans ?_
    have hset := leafPosList_set nodes nid emptyNode
      ⟨range_bbox prims s e, s, e - s, 0, false⟩ hsome rfl
    refine (hset.append_right _).trans ?_
    rw [show leafContrib (⟨range_bbox prims s e, s, e - s, 0, false⟩ : bvh_node) =
      List.range' s (e - s) from rfl, List.append_assoc]
    exact perm_middle_front _ _ _
  · intro q hqm
    rcases List.mem_cons.mp hqm with hqh | hqr
    · subst hqh
      refine ⟨⟨range_bbox prims s e, s, e - s, 0, false⟩, hres_nid, ?_⟩
      show range_bbox prims s e = range_bbox RES.2 s e
      unfold range_bbox
      rw [hsliceq]
    · exact HO.boxes q hqr
  · intro i nval hcase hget
    rcases hcase with hmem | hge
    · simp only [List.map_cons, List.mem_cons] at hmem
      rcases hmem with hih | hir
      · subst hih
        rw [hres_nid] at hget
        obtain rfl := (Option.some.injEq _ _).mp hget
        unfold nodeOK
        constructor
        · intro hI
          exact Bool.noConfusion hI
        · intro _
          refine ⟨hsmall, ?_, ?_⟩
          · show s + (e - s) ≤ RES.2.length
            rw [HO.len_prims]
            omega
          · show range_bbox prims s e = range_bbox RES.2 s (s + (e - s))
            rw [show s + (e - s) = e from by omega]
            unfold range_bbox
            rw [hsliceq]
      · exact HO.ok i nval (Or.inl hir) hget
    · refine HO.ok i nval (Or.inr ?_) hget
      omega

theorem loopOK_cons_internal (nodes : List bvh_node) (prims : List bvh_primitive)
    (nid s e : ℕ) (rest : List (ℕ × ℕ × ℕ)) (RES : List bvh_node × List bvh_primitive)
    (hnidlt : nid < nodes.length) (hsome : nodes[nid]? = some emptyNode)
    (hse : s ≤ e) (hepr : e ≤ prims.length) (hbig : bvh_max_prims < e - s)
    (hnidnotin : nid ∉ rest.map (fun q => q.1))
    (hdisjhead : ∀ q ∈ rest, rngDisj (nid, s, e) q)
    (HO : LoopOK
      ((nodes.set nid ⟨range_bbox prims s e, nodes.length, 2,
          (split_middle prims s e).2.2, true⟩) ++ [emptyNode, emptyNode])
      (split_middle prims s e).1
      (rest ++ [(nodes.length, s, (split_middle prims s e).2.1),
                (nodes.length + 1, (split_middle prims s e).2.1, e)])
      RES) :
    LoopOK nodes prims ((nid, s, e) :: rest) RES := by
  have h4 : (4 : ℕ) < e - s := hbig
  have hmid := split_middle_mid prims s e hse hepr h4
  have hplen := split_middle_length prims s e hse hepr
  have hlen1 : ((nodes.set nid ⟨range_bbox prims s e, nodes.length, 2,
      (split_middle prims s e).2.2, true⟩) ++ [emptyNode, emptyNode]).length =
      nodes.length + 2 := by
    simp
  have hsetlen : (nodes.set nid ⟨range_bbox prims s e, nodes.length, 2,
      (split_middle prims s e).2.2, true⟩).length = nodes.length :=
    List.length_set nodes nid _
  have hkeep_nid : ∀ q ∈ (rest ++ [(nodes.length, s, (split_middle prims s e).2.1),
      (nodes.length + 1, (split_middle prims s e).2.1, e)]), q.1 ≠ nid := by
    intro q hqm
    rcases List.mem_append.mp hqm with h | h
    · intro hcontra
      exact hnidnotin (hcontra ▸ List.mem_map_of_mem _ h)
    · simp only [List.mem_cons, List.not_mem_nil, or_false] at h
      rcases h with rfl | rfl
      · show nodes.length ≠ nid
        omega
      · show nodes.length + 1 ≠ nid
        omega
  have hres_nid : RES.1[nid]? = some ⟨range_bbox prims s e, nodes.length, 2,
      (split_middle prims s e).2.2, true⟩ := by
    rw [HO.keep nid (by omega) hkeep_nid]
    rw [List.getElem?_append_left (by omega)]
    exact List.getElem?_set_self (by simpa using hnidlt)
  have hmemA : (nodes.length, s, (split_middle prims s e).2.1) ∈
      (rest ++ [(nodes.length, s, (split_middle prims s e).2.1),
                (nodes.length + 1, (split_middle prims s e).2.1, e)]) := by
    apply List.mem_append_right
    exact List.mem_cons_self _ _
  have hmemB : (nodes.length + 1, (split_middle prims s e).2.1, e) ∈
      (rest ++ [(nodes.length, s, (split_middle prims s e).2.1),
                (nodes.length + 1, (split_middle prims s e).2.1, e)]) := by
    apply List.mem_append_right
    exact List.mem_cons_of_mem _ (List.mem_cons_self _ _)
  have hsliceA : (slice RES.2 s (split_middle prims s e).2.1).Perm
      (slice (split_middle prims s e).1 s (split_middle prims s e).2.1) :=
    HO.sperm _ hmemA
  have hsliceB : (slice RES.2 (split_middle prims s e).2.1 e).Perm
      (slice (split_middle prims s e).1 (split_middle prims s e).2.1 e) :=
    HO.sperm _ hmemB
  have hsperm_head : (slice RES.2 s e).Perm (slice prims s e) := by
    rw [slice_split RES.2 s (split_middle prims s e).2.1 e hmid.1.le hmid.2.le]
    refine (hsliceA.append hsliceB).trans ?_
    rw [← slice_split (split_middle prims s e).1 s (split_middle prims s e).2.1 e
      hmid.1.le hmid.2.le]
    exact split_middle_slice prims s e hse hepr
  have hbox_head : range_bbox RES.2 s e = range_bbox prims s e := by
    unfold range_bbox
    exact bigMerge_perm (hsperm_head.map _)
  refine ⟨?_, ?_, ?_, ?_, ?_, ?_, ?_, ?_⟩
  · have h := HO.len_nodes
    rw [hlen1] at h
    omega
  · rw [HO.len_prims, hplen]
  · intro i hi hni
    rw [HO.keep i (by omega) ?hq1]
    case hq1 =>
      intro q hqm
      rcases List.mem_append.mp hqm with h | h
      · exact hni q (List.mem_cons_of_mem _ h)
      · simp only [List.mem_cons, List.not_mem_nil, or_false] at h
        rcases h with rfl | rfl
        · show nodes.length ≠ i
          omega
        · show nodes.length + 1 ≠ i
          omega
    rw [List.getElem?_append_left (by omega)]
    exact List.getElem?_set_ne (hni (nid, s, e) (List.mem_cons_self _ _))
  · intro p hp
    have hphead : p < s ∨ e ≤ p := hp (nid, s, e) (List.mem_cons_self _ _)
    rw [HO.pout p ?hq2]
    case hq2 =>
      intro q hqm
      rcases List.mem_append.mp hqm with h | h
      · exact hp q (List.mem_cons_of_mem _ h)
      · simp only [List.mem_cons, List.not_mem_nil, or_false] at h
        rcases h with rfl | rfl
        · show p < s ∨ (split_middle prims s e).2.1 ≤ p
          omega
        · show p < (split_middle prims s e).2.1 ∨ e ≤ p
          omega
    exact split_middle_outside prims s e hse hepr p hphead
  · intro q hqm
    rcases List.mem_cons.mp hqm with hqh | hqr
    · subst hqh
      exact hsperm_head
    · have hd : e ≤ q.2.1 ∨ q.2.2 ≤ s := hdisjhead q hqr
      have heq : slice (split_middle prims s e).1 q.2.1 q.2.2 = slice prims q.2.1 q.2.2 := by
        apply slice_congr
        intro p h1 h2
        exact split_middle_outside prims s e hse hepr p (by omega)
      rw [← heq]
      exact HO.sperm q (List.mem_append_left _ hqr)
  · simp only [List.map_cons, List.flatten_cons]
    refine HO.leafs.trans ?_
    rw [leafPosList_append]
    rw [show leafPosList [emptyNode, emptyNode] = [] from rfl, List.append_nil]
    simp only [List.map_append, List.flatten_append, List.map_cons, List.flatten_cons,
      List.map_nil, List.flatten_nil, List.append_nil]
    have hset := leafPosList_set nodes nid emptyNode
      ⟨range_bbox prims s e, nodes.length, 2, (split_middle prims s e).2.2, true⟩ hsome rfl
    have hsetperm : (leafPosList (nodes.set nid ⟨range_bbox prims s e, nodes.length, 2,
        (split_middle prims s e).2.2, true⟩)).Perm (leafPosList nodes) := by
      refine hset.trans ?_
      rw [show leafContrib (⟨range_bbox prims s e, nodes.length, 2,
        (split_middle prims s e).2.2, true⟩ : bvh_node) = [] from rfl, List.nil_append]
    refine (hsetperm.append_right _).trans ?_
    refine List.Perm.append_left _ ?_
    have hrange : List.range' s ((split_middle prims s e).2.1 - s) ++
        List.range' (split_middle prims s e).2.1 (e - (split_middle prims s e).2.1) =
        List.range' s (e - s) := by
      have h := List.range'_append s ((split_middle prims s e).2.1 - s)
        (e - (split_middle prims s e).2.1) 1
      rw [show s + 1 * ((split_middle prims s e).2.1 - s) = (split_middle prims s e).2.1
        from by omega] at h
      rw [show (e - (split_middle prims s e).2.1) + ((split_middle prims s e).2.1 - s) =
        e - s from by omega] at h
      exact h
    rw [hrange]
    exact List.perm_append_comm
  · intro q hqm
    rcases List.mem_cons.mp hqm with hqh | hqr
    · subst hqh
      refine ⟨⟨range_bbox prims s e, nodes.length, 2,
        (split_middle prims s e).2.2, true⟩, hres_nid, ?_⟩
      show range_bbox prims s e = range_bbox RES.2 s e
      rw [hbox_head]
    · exact HO.boxes q (List.mem_append_left _ hqr)
  · intro i nval hcase hget
    rcases hcase with hmem | hge
    · simp only [List.map_cons, List.mem_cons] at hmem
      rcases hmem with hih | hir
      · subst hih
        rw [hres_nid] at hget
        obtain rfl := (Option.some.injEq _ _).mp hget
        unfold nodeOK
        constructor
        · intro _
          refine ⟨rfl, ?_, ?_⟩
          · show nodes.length + 1 < RES.1.length
            have h := HO.len_nodes
            rw [hlen1] at h
            omega
          · obtain ⟨na, hna, hba⟩ := HO.boxes _ hmemA
            obtain ⟨nb, hnb, hbb⟩ := HO.boxes _ hmemB
            show range_bbox prims s e = bbox_merge (RES.1.getD nodes.length emptyNode).bbox
              (RES.1.getD (nodes.length + 1) emptyNode).bbox
            rw [List.getD_eq_getElem?_getD, hna, List.getD_eq_getElem?_getD, hnb]
            simp only [Option.getD_some]
            rw [hba, hbb]
            unfold range_bbox
            rw [← bigMerge_append, ← List.map_append,
              ← slice_split RES.2 s (split_middle prims s e).2.1 e hmid.1.le hmid.2.le]
            exact (bigMerge_perm (hsperm_head.map _)).symm
        · intro hfalse
          exact Bool.noConfusion hfalse
      · refine HO.ok i nval (Or.inl ?_) hget
        rw [List.map_append]
        exact List.mem_append_left _ hir
    · rcases Nat.lt_or_ge i (nodes.length + 2) with h2 | h2
      · refine HO.ok i nval (Or.inl ?_) hget
        rw [List.map_append]
        apply List.mem_append_right
        simp only [List.map_cons, List.map_nil, List.mem_cons, List.mem_singleton]
        omega
      · refine HO.ok i nval (Or.inr ?_) hget
        rw [hlen1]
        exact h2

theorem build_loop_ok : ∀ (fuel : ℕ) (nodes : List bvh_node) (prims : List bvh_primitive)
    (queue : List (ℕ × ℕ × ℕ)),
    qmeasure queue ≤ fuel →
    (queue.map (fun q => q.1)).Nodup →
    (∀ q ∈ queue, q.1 < nodes.length ∧ nodes[q.1]? = some emptyNode ∧
      q.2.1 ≤ q.2.2 ∧ q.2.2 ≤ prims.length) →
    queue.Pairwise rngDisj →
    LoopOK nodes prims queue (build_loop fuel nodes prims queue) := by
  intro fuel
  induction fuel with
  | zero =>
    intro nodes prims queue hfuel hnd hq hdisj
    rw [qmeasure_nil_of_le_zero hfuel]
    exact loopOK_nil nodes prims
  | succ n ih =>
    intro nodes prims queue hfuel hnd hq hdisj
    cases queue with
    | nil => exact loopOK_nil nodes prims
    | cons head rest =>
      obtain ⟨nid, s, e⟩ := head
      obtain ⟨hnidlt0, hsome, hse0, hepr0⟩ := hq (nid, s, e) (List.mem_cons_self _ _)
      have hnidlt : nid < nodes.length := hnidlt0
      have hse : s ≤ e := hse0
      have hepr : e ≤ prims.length := hepr0
      have hold : nodes.getD nid emptyNode = emptyNode := by
        rw [List.getD_eq_getElem?_getD, hsome]
        rfl
      have hnidnotin : nid ∉ rest.map (fun q => q.1) := by
        simp only [List.map_cons, List.nodup_cons] at hnd
        exact hnd.1
      have hndrest : (rest.map (fun q => q.1)).Nodup := by
        simp only [List.map_cons, List.nodup_cons] at hnd
        exact hnd.2
      have hdisjhead : ∀ q ∈ rest, rngDisj (nid, s, e) q :=
        (List.pairwise_cons.mp hdisj).1
      have hdisjrest : rest.Pairwise rngDisj := (List.pairwise_cons.mp hdisj).2
      rw [qmeasure_cons] at hfuel
      have hwhead : qweight (nid, s, e) = if e - s = 0 then 1 else 2 * (e - s) - 1 := rfl
      by_cases hbig : bvh_max_prims < e - s
      · -- internal step
        have h4 : (4 : ℕ) < e - s := hbig
        have hmid := split_middle_mid prims s e hse hepr h4
        have hplen := split_middle_length prims s e hse hepr
        have hstep : build_loop (n + 1) nodes prims ((nid, s, e) :: rest) =
            build_loop n
              ((nodes.set nid ⟨range_bbox prims s e, nodes.length, 2,
                  (split_middle prims s e).2.2, true⟩) ++ [emptyNode, emptyNode])
              (split_middle prims s e).1
              (rest ++ [(nodes.length, s, (split_middle prims s e).2.1),
                        (nodes.length + 1, (split_middle prims s e).2.1, e)]) := by
          show build_loop n (build_visit nodes prims nid s e).1
            (build_visit nodes prims nid s e).2.1
            (rest ++ (build_visit nodes prims nid s e).2.2) = _
          rw [build_visit_internal nodes prims nid s e hbig hold]
        have HO := ih
          ((nodes.set nid ⟨range_bbox prims s e, nodes.length, 2,
              (split_middle prims s e).2.2, true⟩) ++ [emptyNode, emptyNode])
          (split_middle prims s e).1
          (rest ++ [(nodes.length, s, (split_middle prims s e).2.1),
                    (nodes.length + 1, (split_middle prims s e).2.1, e)])
          ?hfuel ?hnd ?hq ?hdisj
        case hfuel =>
          rw [qmeasure_append, qmeasure_cons, qmeasure_cons]
          rw [hwhead] at hfuel
          have hwA : qweight (nodes.length, s, (split_middle prims s e).2.1) =
              2 * ((split_middle prims s e).2.1 - s) - 1 :=
            qweight_eq _ hmid.1
          have hwB : qweight (nodes.length + 1, (split_middle prims s e).2.1, e) =
              2 * (e - (split_middle prims s e).2.1) - 1 :=
            qweight_eq _ hmid.2
          rw [hwA, hwB]
          rw [if_neg (by omega)] at hfuel
          rw [qmeasure_nil]
          omega
        case hnd =>
          rw [List.map_append, List.nodup_append]
          refine ⟨hndrest, ?_, ?_⟩
          · simp only [List.map_cons, List.map_nil]
            simp only [List.nodup_cons, List.mem_cons, List.not_mem_nil, or_false,
              List.nodup_nil, and_true, List.not_mem_nil, not_false_iff]
            omega
          · intro x hx
            obtain ⟨q, hqm, rfl⟩ := List.mem_map.mp hx
            have hlt := (hq q (List.mem_cons_of_mem _ hqm)).1
            simp only [List.map_cons, List.map_nil, List.mem_cons, List.not_mem_nil,
              or_false]
            omega
        case hq =>
          intro q hqm
          rcases List.mem_append.mp hqm with h | h
          · obtain ⟨h1, h2, h3, hq4⟩ := hq q (List.mem_cons_of_mem _ h)
            have hne : nid ≠ q.1 := by
              intro hcontra
              exact hnidnotin (hcontra ▸ List.mem_map_of_mem _ h)
            have h1' : q.1 < nodes.length := h1
            refine ⟨by simp; omega, ?_, h3, by
              show q.2.2 ≤ (split_middle prims s e).1.length
              rw [hplen]
              exact hq4⟩
            rw [List.getElem?_append_left (by simp; omega)]
            rw [List.getElem?_set_ne hne]
            exact h2
          · simp only [List.mem_cons, List.not_mem_nil, or_false] at h
            rcases h with rfl | rfl
            · refine ⟨by simp, ?_, hmid.1.le, by
                show (split_middle prims s e).2.1 ≤ (split_middle prims s e).1.length
                rw [hplen]
                omega⟩
              show ((nodes.set nid ⟨range_bbox prims s e, nodes.length, 2,
                (split_middle prims s e).2.2, true⟩) ++ [emptyNode, emptyNode])[nodes.length]? =
                some emptyNode
              rw [List.getElem?_append_right (by simp)]
              simp
            · refine ⟨by simp, ?_, hmid.2.le, by
                show e ≤ (split_middle prims s e).1.length
                rw [hplen]
                exact hepr⟩
              show ((nodes.set nid ⟨range_bbox prims s e, nodes.length, 2,
                (split_middle prims s e).2.2, true⟩) ++
                  [emptyNode, emptyNode])[nodes.length + 1]? = some emptyNode
              rw [List.getElem?_append_right (by simp)]
              simp
        case hdisj =>
          rw [List.pairwise_append]
          refine ⟨hdisjrest, ?_, ?_⟩
          · constructor
            · intro b hb
              simp only [List.mem_cons, List.not_mem_nil, or_false] at hb
              subst hb
              show (split_middle prims s e).2.1 ≤ (split_middle prims s e).2.1 ∨ e ≤ s
              exact Or.inl le_rfl
            · constructor
              · intro b hb
                exact absurd hb (List.not_mem_nil b)
              · exact List.Pairwise.nil
          · intro a ha b hb
            have hd : e ≤ a.2.1 ∨ a.2.2 ≤ s := hdisjhead a ha
            simp only [List.mem_cons, List.not_mem_nil, or_false] at hb
            rcases hb with rfl | rfl
            · show a.2.2 ≤ s ∨ (split_middle prims s e).2.1 ≤ a.2.1
              omega
            · show a.2.2 ≤ (split_middle prims s e).2.1 ∨ e ≤ a.2.1
              omega
        rw [hstep]
        exact loopOK_cons_internal nodes prims nid s e rest _ hnidlt hsome hse hepr
          hbig hnidnotin hdisjhead HO
      · -- leaf step
        have hstep : build_loop (n + 1) nodes prims ((nid, s, e) :: rest) =
            build_loop n (nodes.set nid ⟨range_bbox prims s e, s, e - s, 0, false⟩)
              prims rest := by
          show build_loop n (build_visit nodes prims nid s e).1
            (build_visit nodes prims nid s e).2.1
            (rest ++ (build_visit nodes prims nid s e).2.2) = _
          rw [build_visit_leaf nodes prims nid s e hbig hold]
          show build_loop n _ prims (rest ++ []) = _
          rw [List.append_nil]
        have HO := ih (nodes.set nid ⟨range_bbox prims s e, s, e - s, 0, false⟩)
          prims rest ?hfuel2 hndrest ?hq2 hdisjrest
        case hfuel2 =>
          have h1 := qweight_pos (nid, s, e)
          omega
        case hq2 =>
          intro q hqm
          obtain ⟨h1, h2, h3, hq4⟩ := hq q (List.mem_cons_of_mem _ hqm)
          have hne : nid ≠ q.1 := by
            intro hcontra
            exact hnidnotin (hcontra ▸ List.mem_map_of_mem _ hqm)
          refine ⟨by simpa using h1, ?_, h3, hq4⟩
          rw [List.getElem?_set_ne hne]
          exact h2
        rw [hstep]
        exact loopOK_cons_leaf nodes prims nid s e rest _ hnidlt hsome hse hepr
          (by omega) hnidnotin hdisjhead HO

-- C5 helpers, part 7: leaf-box and leaf-value aggregation
theorem leafBoxList_eq (nodes : List bvh_node) :
    leafBoxList nodes =
      (nodes.map (fun n => if n.internal then ([] : List bbox3f) else [n.bbox])).flatten := by
  induction nodes with
  | nil => rfl
  | cons h t ih =>
    by_cases hI : h.internal = true
    · have h1 : leafBoxList (h :: t) = leafBoxList t := by
        unfold leafBoxList
        rw [List.filter_cons_of_neg (by simp [hI])]
      rw [h1, ih, List.map_cons, List.flatten_cons, if_pos hI, List.nil_append]
    · have h1 : leafBoxList (h :: t) = h.bbox :: leafBoxList t := by
        unfold leafBoxList
        rw [List.filter_cons_of_pos (by simp [hI]), List.map_cons]
      rw [h1, ih, List.map_cons, List.flatten_cons, if_neg hI]
      rfl

theorem bigMerge_leafBoxes (nodesL : List bvh_node) (primsL : List bvh_primitive)
    (hok : ∀ n ∈ nodesL, n.internal = false →
      n.start + n.num ≤ primsL.length ∧
      n.bbox = range_bbox primsL n.start (n.start + n.num)) :
    bigMerge (leafBoxList nodesL) =
      bigMerge ((leafPosList nodesL).map (fun k => (primsL.getD k default).bbox)) := by
  rw [leafBoxList_eq, ← bigMerge_flatten]
  unfold leafPosList
  rw [List.map_flatten, ← bigMerge_flatten]
  rw [List.map_map, List.map_map, List.map_map]
  congr 1
  apply List.map_congr_left
  intro n hn
  simp only [Function.comp]
  by_cases hI : n.internal = true
  · rw [if_pos hI, show leafContrib n = [] from by unfold leafContrib; rw [if_pos hI]]
    rfl
  · have hI' : n.internal = false := by rw [Bool.not_eq_true] at hI; exact hI
    obtain ⟨hlen, hbb⟩ := hok n hn hI'
    rw [if_neg hI, show leafContrib n = List.range' n.start n.num from by
      unfold leafContrib; rw [if_neg hI]]
    have hmapeq : List.map (fun k => (primsL.getD k default).bbox)
        (List.range' n.start n.num) =
        (slice primsL n.start (n.start + n.num)).map (fun p => p.bbox) := by
      rw [slice_map_getD primsL n.start n.num hlen, List.map_map]
      rfl
    rw [hmapeq]
    show bbox_merge invalidb3f n.bbox = range_bbox primsL n.start (n.start + n.num)
    rw [hbb]
    exact bigMerge_absorb _

theorem leafValues_eq (nodes : List bvh_node) (perm : List ℕ)
    (hok : ∀ n ∈ nodes, n.internal = false → n.start + n.num ≤ perm.length) :
    leafValues nodes perm =
      (leafPosList nodes).map (fun k => perm.getD k default) := by
  unfold leafValues leafPosList
  rw [List.map_flatten, List.map_map]
  congr 1
  apply List.map_congr_left
  intro n hn
  simp only [Function.comp]
  by_cases hI : n.internal = true
  · rw [if_pos hI, show leafContrib n = [] from by unfold leafContrib; rw [if_pos hI]]
    rfl
  · have hI' : n.internal = false := by rw [Bool.not_eq_true] at hI; exact hI
    have hlen := hok n hn hI'
    rw [if_neg hI, show leafContrib n = List.range' n.start n.num from by
      unfold leafContrib; rw [if_neg hI]]
    have hs := slice_map_getD perm n.start n.num hlen
    unfold slice at hs
    rw [show n.start + n.num - n.start = n.num from by omega] at hs
    exact hs

/-- Claim C5: the tree built by `build_bvh` over `N` primitives whose
ids are `0..N-1` satisfies the structural invariants: non-empty node
array, every node is a well-formed internal (2 children whose boxes
merge to its box) or leaf (contiguous in-bounds range of at most 4
primitives, box = bound of the range); the root box bounds all
primitives; the permutation array permutes `0..N-1`; the merge of all
leaf boxes equals the root box; and the leaf ranges cover every
original index exactly once. -/
theorem c5_theorem (prims : List bvh_primitive)
    (hback : prims.map (fun p => p.primitive) = List.range prims.length) :
    c5Conclusion prims := by
  have HO : LoopOK [emptyNode] prims [(0, 0, prims.length)] (build_bvh prims) := by
    refine build_loop_ok (2 * prims.length + 2) [emptyNode] prims
      [(0, 0, prims.length)] ?_ ?_ ?_ ?_
    · have hw : qmeasure [(0, 0, prims.length)] =
          if prims.length - 0 = 0 then 1 else 2 * (prims.length - 0) - 1 := rfl
      rw [hw]
      split <;> omega
    · simp
    · intro q hqm
      simp only [List.mem_cons, List.not_mem_nil, or_false] at hqm
      subst hqm
      exact ⟨by simp, rfl, Nat.zero_le _, le_refl _⟩
    · exact List.pairwise_singleton _ _
  have hlen2 : (build_bvh prims).2.length = prims.length := HO.len_prims
  obtain ⟨rootn, hroot0a, hrootbba⟩ :=
    HO.boxes (0, 0, prims.length) (List.mem_cons_self _ _)
  have hroot0 : (build_bvh prims).1[0]? = some rootn := hroot0a
  have hrootbb : rootn.bbox = range_bbox (build_bvh prims).2 0 prims.length := hrootbba
  have hperm2 : (build_bvh prims).2.Perm prims := by
    have hs : (slice (build_bvh prims).2 0 prims.length).Perm
        (slice prims 0 prims.length) :=
      HO.sperm (0, 0, prims.length) (List.mem_cons_self _ _)
    have h1 : slice (build_bvh prims).2 0 prims.length = (build_bvh prims).2 := by
      rw [← hlen2]
      exact slice_zero_length _
    rw [h1, slice_zero_length] at hs
    exact hs
  have hpermids : ((build_bvh prims).2.map (fun p => p.primitive)).Perm
      (List.range prims.length) := by
    have h := hperm2.map (fun p => p.primitive)
    rw [hback] at h
    exact h
  have hlp : (leafPosList (build_bvh prims).1).Perm (List.range' 0 prims.length) := by
    have h : (leafPosList (build_bvh prims).1).Perm
        ([] ++ (List.range' 0 (prims.length - 0) ++ [])) := HO.leafs
    rw [List.nil_append, List.append_nil, Nat.sub_zero] at h
    exact h
  have hlpr : (leafPosList (build_bvh prims).1).Perm (List.range prims.length) := by
    rw [List.range_eq_range']
    exact hlp
  have hallok : ∀ n ∈ (build_bvh prims).1,
      nodeOK (build_bvh prims).1 (build_bvh prims).2 n := by
    intro n hn
    obtain ⟨i, hi⟩ := List.mem_iff_getElem?.mp hn
    by_cases hi0 : i = 0
    · subst hi0
      exact HO.ok 0 n (Or.inl (by simp)) hi
    · exact HO.ok i n (Or.inr (by simp; omega)) hi
  have hok5 : ∀ n ∈ (build_bvh prims).1, n.internal = false →
      n.start + n.num ≤ (build_bvh prims).2.length ∧
      n.bbox = range_bbox (build_bvh prims).2 n.start (n.start + n.num) := by
    intro n hn hI
    obtain ⟨h1, h2, h3⟩ := (hallok n hn).2 hI
    exact ⟨h2, h3⟩
  unfold c5Conclusion
  refine ⟨?_, hallok, ?_, hpermids, ?_, ?_⟩
  · apply List.ne_nil_of_length_pos
    have h := HO.len_nodes
    simp only [List.length_cons, List.length_nil] at h
    omega
  · rw [List.getD_eq_getElem?_getD, hroot0]
    exact hrootbb
  · rw [bigMerge_leafBoxes (build_bvh prims).1 (build_bvh prims).2 hok5]
    rw [bigMerge_perm (hlp.map (fun k => ((build_bvh prims).2.getD k default).bbox))]
    have hmap : List.map (fun k => ((build_bvh prims).2.getD k default).bbox)
        (List.range' 0 prims.length) =
        (slice (build_bvh prims).2 0 (0 + prims.length)).map (fun p => p.bbox) := by
      rw [slice_map_getD (build_bvh prims).2 0 prims.length (by omega), List.map_map]
      rfl
    rw [hmap]
    rw [List.getD_eq_getElem?_getD, hroot0]
    show range_bbox (build_bvh prims).2 0 (0 + prims.length) = rootn.bbox
    rw [Nat.zero_add, hrootbb]
  · have hok6 : ∀ n ∈ (build_bvh prims).1, n.internal = false →
        n.start + n.num ≤ ((build_bvh prims).2.map (fun p => p.primitive)).length := by
      intro n hn hI
      rw [List.length_map]
      exact (hok5 n hn hI).1
    rw [leafValues_eq _ _ hok6]
    refine List.Perm.trans (hlpr.map _) ?_
    have hplen6 : ((build_bvh prims).2.map (fun p => p.primitive)).length =
        prims.length := by
      rw [List.length_map, hlen2]
    have hmr : (List.range prims.length).map
        (fun k => ((build_bvh prims).2.map (fun p => p.primitive)).getD k default) =
        (build_bvh prims).2.map (fun p => p.primitive) := by
      rw [← hplen6]
      exact map_getD_range _
    rw [hmr]
    exact hpermids

/-- Witness for C5 at six distinct collinear primitives with identity
back-references. -/
theorem c5_witness :
    prims6.map (fun p => p.primitive) = List.range prims6.length ∧
      c5Conclusion prims6 :=
  ⟨by with_unfolding_all decide,
   c5_theorem prims6 (by with_unfolding_all decide)⟩

end RtrSpec
